import Mathlib

/-!
Verification of the x64 JIT group-normalization forward primitive
(`src/cpu/x64/jit_uni_group_normalization.cpp`).

The numeric kernels are embedded over exact rationals: every float register
lane is a `ℚ`, memory is a total function `ℕ → ℚ` from element indices to
values, and each generated loop is replayed as a structural recursion in the
same iteration order.  Hardware square root, the fused post-operation chain
and the saturating type conversion performed by external io helpers are
abstracted as explicit function parameters, so statements about operation
order and data flow are exact.
-/

open Finset

/-- Build-time configuration of the statistics kernel `kernel_stat_t`.
`simd_w` is `vlen / sizeof(float)` (8 on avx2, 16 on avx512_core), `C` is
`pd->C()` (the element stride between two consecutive spatial positions),
`C_PER_G` is `C / pd->G()`, and `SP` is `pd->D() * pd->H() * pd->W()`. -/
structure StatCfg where
  simd_w : ℕ
  C : ℕ
  C_PER_G : ℕ
  SP : ℕ

/-- `axis_simd_tail_ = C_PER_G_ % simd_w_`. -/
def StatCfg.axis_simd_tail (c : StatCfg) : ℕ := c.C_PER_G % c.simd_w

/-- `unroll_c_ = 4`, the maximum unroll factor of the channel-block loop. -/
def StatCfg.unroll_c : ℕ := 4

/-- `c_block_ = unroll_c_ * simd_w_`. -/
def StatCfg.c_block (c : StatCfg) : ℕ := StatCfg.unroll_c * c.simd_w

/-- `nc_blocks_ = C_PER_G_ / c_block_`. -/
def StatCfg.nc_blocks (c : StatCfg) : ℕ := c.C_PER_G / c.c_block

/-- `c_block_tail_ = (C_PER_G_ % c_block_) - axis_simd_tail_`. -/
def StatCfg.c_block_tail (c : StatCfg) : ℕ := c.C_PER_G % c.c_block - c.axis_simd_tail

/-- `unroll_c_tail_ = c_block_tail_ / simd_w_`. -/
def StatCfg.unroll_c_tail (c : StatCfg) : ℕ := c.c_block_tail / c.simd_w

/-- `max_unroll` as computed in `kernel_stat_t::generate`. -/
def StatCfg.max_unroll (c : StatCfg) : ℕ :=
  if c.nc_blocks ≠ 0 then StatCfg.unroll_c
  else if c.unroll_c_tail ≠ 0 then c.unroll_c_tail
  else 1

/-- The kernel is only ever instantiated for avx2 (simd_w = 8) or
avx512_core (simd_w = 16); see `kernel_stat_base_t::create`. -/
def StatCfg.wf (c : StatCfg) : Prop := c.simd_w = 8 ∨ c.simd_w = 16

/-- Vector load of the io helper: a tail (masked) load fills the lanes at and
beyond `axis_simd_tail_` with zero. -/
def loadLane (c : StatCfg) (src : ℕ → ℚ) (base : ℕ) (tail : Bool) (lane : ℕ) : ℚ :=
  if tail then (if lane < c.axis_simd_tail then src (base + lane) else 0)
  else src (base + lane)

/-- One spatial iteration of `compute_mean_block` / `compute_var_block`: for
each unrolled register `ur < unroll`, accumulate the per-lane contribution of
the vector loaded at channel offset `base + ur * simd_w_`. -/
def accStep (w : ℕ) (g : ℕ → ℕ → ℚ) (base unroll : ℕ) (acc : ℕ → ℕ → ℚ) : ℕ → ℕ → ℚ :=
  fun ur lane => if ur < unroll then acc ur lane + g (base + ur * w) lane else acc ur lane

/-- The `sp_blk_loop` of `compute_mean_block` / `compute_var_block`: `bs`
spatial iterations, the source pointer advancing by `C_` elements each time. -/
def accBlock (w C : ℕ) (g : ℕ → ℕ → ℚ) (start unroll : ℕ) : ℕ → (ℕ → ℕ → ℚ) → (ℕ → ℕ → ℚ)
  | 0, acc => acc
  | bs + 1, acc => accStep w g (start + bs * C) unroll (accBlock w C g start unroll bs acc)

/-- The `c_blk_loop` of `generate()`: `nb` full channel blocks, each processed
with unroll factor `unroll_c_ = 4`, the base advancing by `c_block_` channels. -/
def accFullBlocks (w C cb : ℕ) (g : ℕ → ℕ → ℚ) (bs : ℕ) : ℕ → (ℕ → ℕ → ℚ) → (ℕ → ℕ → ℚ)
  | 0, acc => acc
  | b + 1, acc => accBlock w C g (b * cb) StatCfg.unroll_c bs (accFullBlocks w C cb g bs b acc)

/-- Accumulator state produced by `kernel_stat_t::generate`: zero-initialised
unroll registers, then the full-block loop, the reduced-unroll remainder block
at base `nc_blocks_ * c_block_`, and the masked tail block at base
`nc_blocks_ * c_block_ + c_block_tail_`.  `g` is the per-lane contribution of
an unmasked vector, `gt` of a masked tail vector. -/
def statAccum (c : StatCfg) (g gt : ℕ → ℕ → ℚ) (bs : ℕ) : ℕ → ℕ → ℚ :=
  let acc1 := accFullBlocks c.simd_w c.C c.c_block g bs c.nc_blocks (fun _ _ => 0)
  let acc2 := if c.unroll_c_tail ≠ 0 then
      accBlock c.simd_w c.C g (c.nc_blocks * c.c_block) c.unroll_c_tail bs acc1
    else acc1
  if c.axis_simd_tail ≠ 0 then
    accBlock c.simd_w c.C gt (c.nc_blocks * c.c_block + c.c_block_tail) 1 bs acc2
  else acc2

/-- The 4→2→1 pairwise register reduction (the `switch (max_unroll)` of
`generate()`), producing the single surviving vector register `vmm_stat`. -/
def reduceUnrolled (c : StatCfg) (acc : ℕ → ℕ → ℚ) : ℕ → ℚ := fun lane =>
  if c.max_unroll = 4 then (acc 0 lane + acc 1 lane) + (acc 2 lane + acc 3 lane)
  else if c.max_unroll = 3 then (acc 0 lane + acc 1 lane) + acc 2 lane
  else if c.max_unroll = 2 then acc 0 lane + acc 1 lane
  else acc 0 lane

/-- One shuffle-and-add step of `reduce_horizontal`: each of the shuffles used
(`vshuff32x4 0x4E / 0xB1`, `vperm2f128 0x1`, `vshufps 0x4E / 0xB1`) pairs lane
`i` with lane `i ^^^ k` for `k` = 8, 4, 2, 1 respectively. -/
def shuffleAdd (k : ℕ) (v : ℕ → ℚ) : ℕ → ℚ := fun lane => v lane + v (lane ^^^ k)

/-- `kernel_stat_t::reduce_horizontal`: the fixed shuffle-and-add sequence, a
three-step chain on avx2 and a four-step chain on avx512_core. -/
def reduce_horizontal (c : StatCfg) (v : ℕ → ℚ) : ℕ → ℚ :=
  if c.simd_w = 16 then shuffleAdd 1 (shuffleAdd 2 (shuffleAdd 4 (shuffleAdd 8 v)))
  else shuffleAdd 1 (shuffleAdd 2 (shuffleAdd 4 v))

/-- The condition under which the statistics kernel divides its reduced sum by
`C_PER_G_ * SP_` before storing (`if (C_PER_G_ >= 32)` in `generate()`; the
`SINGLE_KERNEL_HEURISTIC_ANCHOR` pairing spot). -/
def kernelDividesInternally (c : StatCfg) : Bool := decide (32 ≤ c.C_PER_G)

/-- The scheduler's strategy decision `if (C_PER_G >= 32)` in
`execute_forward`: `true` selects the single-threaded-group strategy A. -/
def schedulerSelectsA (cpg : ℕ) : Bool := decide (32 ≤ cpg)

/-- The final content of `vmm_stat` right before the store: register reduction,
horizontal reduction, and (conditionally) the divide-by-`C_PER_G_ * SP_`. -/
def statVec (c : StatCfg) (acc : ℕ → ℕ → ℚ) : ℕ → ℚ :=
  let v := reduce_horizontal c (reduceUnrolled c acc)
  fun lane =>
    if kernelDividesInternally c then v lane / ((c.C_PER_G : ℚ) * (c.SP : ℚ)) else v lane

/-- Per-lane contribution accumulated by `compute_mean_block`: the loaded
source value itself. -/
def meanContrib (c : StatCfg) (src : ℕ → ℚ) (tail : Bool) (base lane : ℕ) : ℚ :=
  loadLane c src base tail lane

/-- The subtraction of the broadcast mean in `compute_var_block`.  On the tail
iteration avx512 subtracts under the tail opmask (lanes beyond the tail keep
the zero produced by the masked load) while avx2 blends the broadcast mean
with a zeroed register before an unmasked subtract; off the tail it is a plain
`vsubps`. -/
def varDiffLane (c : StatCfg) (avx512 tail : Bool) (m x : ℚ) (lane : ℕ) : ℚ :=
  if tail then
    if avx512 then (if lane < c.axis_simd_tail then x - m else x)
    else x - (if lane < c.axis_simd_tail then m else 0)
  else x - m

/-- Per-lane contribution accumulated by `compute_var_block`: the squared
mean-subtracted value (`uni_vfmadd231ps(Vmm_var, Vmm_src, Vmm_src)`). -/
def varContrib (c : StatCfg) (avx512 : Bool) (src : ℕ → ℚ) (m : ℚ) (tail : Bool)
    (base lane : ℕ) : ℚ :=
  let x := loadLane c src base tail lane
  let d := varDiffLane c avx512 tail m x lane
  d * d

/-- Accumulators of the mean kernel (`compute_var_ = false`). -/
def meanAcc (c : StatCfg) (src : ℕ → ℚ) (bs : ℕ) : ℕ → ℕ → ℚ :=
  statAccum c (meanContrib c src false) (meanContrib c src true) bs

/-- Accumulators of the variance kernel (`compute_var_ = true`), `m` being the
scalar read and broadcast from `mean_ptr(0)`. -/
def varAcc (c : StatCfg) (avx512 : Bool) (src : ℕ → ℚ) (m : ℚ) (bs : ℕ) : ℕ → ℕ → ℚ :=
  statAccum c (varContrib c avx512 src m false) (varContrib c avx512 src m true) bs

/-- The single float value stored by a mean-kernel invocation: lane 0 of
`vmm_stat` (the store goes through the one-element tail mask of `io_stat_`). -/
def meanKernel (c : StatCfg) (src : ℕ → ℚ) (bs : ℕ) : ℚ :=
  statVec c (meanAcc c src bs) 0

/-- The single float value stored by a variance-kernel invocation. -/
def varKernel (c : StatCfg) (avx512 : Bool) (src : ℕ → ℚ) (m : ℚ) (bs : ℕ) : ℚ :=
  statVec c (varAcc c avx512 src m bs) 0

/-- Reference value: the plain sum of the in-range group elements over `bs`
spatial positions. -/
def groupSum (c : StatCfg) (src : ℕ → ℚ) (bs : ℕ) : ℚ :=
  ∑ sp ∈ range bs, ∑ ch ∈ range c.C_PER_G, src (sp * c.C + ch)

/-- Reference value: the plain sum of squared deviations from `m`. -/
def groupSqSum (c : StatCfg) (src : ℕ → ℚ) (m : ℚ) (bs : ℕ) : ℚ :=
  ∑ sp ∈ range bs, ∑ ch ∈ range c.C_PER_G, (src (sp * c.C + ch) - m) ^ 2

/-- Total content of the unrolled accumulator registers `0, …, u-1`. -/
def accTotal (w u : ℕ) (acc : ℕ → ℕ → ℚ) : ℚ :=
  ∑ ur ∈ range u, ∑ lane ∈ range w, acc ur lane

lemma sum_range_ite_lt (u t : ℕ) (h : t ≤ u) (f : ℕ → ℚ) :
    ∑ i ∈ range u, (if i < t then f i else 0) = ∑ i ∈ range t, f i := by
  have hu : u = t + (u - t) := (Nat.add_sub_cancel' h).symm
  rw [hu, Finset.sum_range_add]
  have h1 : ∑ i ∈ range t, (if i < t then f i else 0) = ∑ i ∈ range t, f i :=
    Finset.sum_congr rfl (fun i hi => if_pos (Finset.mem_range.mp hi))
  have h2 : ∑ i ∈ range (u - t), (if t + i < t then f (t + i) else 0) = 0 :=
    Finset.sum_eq_zero (fun i _ =>
      if_neg (Nat.not_lt.mpr (Nat.le_add_right t i)))
  rw [h1, h2, add_zero]

lemma sum_range_mul_collapse (m k : ℕ) (f : ℕ → ℚ) :
    ∑ i ∈ range m, ∑ j ∈ range k, f (i * k + j) = ∑ x ∈ range (m * k), f x := by
  induction m with
  | zero => simp
  | succ n ih => rw [Finset.sum_range_succ, ih, Nat.succ_mul, Finset.sum_range_add]

lemma idx_swap (A B C lane : ℕ) : A + B + C + lane = B + (A + C + lane) := by
  rw [Nat.add_right_comm A B C, Nat.add_comm (A + C) B, Nat.add_assoc B (A + C) lane]

lemma idx_swap2 (X B lane : ℕ) : X + B + lane = B + (X + lane) := by
  rw [Nat.add_right_comm X B lane, Nat.add_comm (X + lane) B]

lemma idx_chunk (X C q k sp ch : ℕ) :
    X + k * (C * q) + sp * C + ch = X + (k * q + sp) * C + ch := by
  have h1 : (k * q + sp) * C = k * (C * q) + sp * C := by
    rw [Nat.add_mul, Nat.mul_assoc, Nat.mul_comm q C]
  rw [h1, ← Nat.add_assoc X (k * (C * q)) (sp * C)]

lemma accStep_total (w : ℕ) (g : ℕ → ℕ → ℚ) (base unroll u : ℕ) (acc : ℕ → ℕ → ℚ)
    (h : unroll ≤ u) :
    accTotal w u (accStep w g base unroll acc)
      = accTotal w u acc
        + ∑ ur ∈ range unroll, ∑ lane ∈ range w, g (base + ur * w) lane := by
  unfold accTotal accStep
  have h1 : ∀ ur : ℕ,
      (∑ lane ∈ range w,
          if ur < unroll then acc ur lane + g (base + ur * w) lane else acc ur lane)
        = (∑ lane ∈ range w, acc ur lane)
          + (if ur < unroll then ∑ lane ∈ range w, g (base + ur * w) lane else 0) := by
    intro ur
    by_cases hur : ur < unroll
    · simp [hur, Finset.sum_add_distrib]
    · simp [hur]
  rw [Finset.sum_congr rfl (fun ur _ => h1 ur), Finset.sum_add_distrib,
    sum_range_ite_lt u unroll h]

lemma accBlock_total (w C : ℕ) (g : ℕ → ℕ → ℚ) (start unroll u : ℕ) (h : unroll ≤ u)
    (bs : ℕ) (acc : ℕ → ℕ → ℚ) :
    accTotal w u (accBlock w C g start unroll bs acc)
      = accTotal w u acc
        + ∑ sp ∈ range bs, ∑ ur ∈ range unroll, ∑ lane ∈ range w,
            g (start + sp * C + ur * w) lane := by
  induction bs with
  | zero => simp [accBlock]
  | succ n ih =>
      simp only [accBlock]
      rw [accStep_total w g _ unroll u _ h, ih, Finset.sum_range_succ]
      rw [add_assoc]

lemma accFullBlocks_total (w C cb : ℕ) (g : ℕ → ℕ → ℚ) (bs u nb : ℕ)
    (h : 4 ≤ u ∨ nb = 0) (acc : ℕ → ℕ → ℚ) :
    accTotal w u (accFullBlocks w C cb g bs nb acc)
      = accTotal w u acc
        + ∑ b ∈ range nb, ∑ sp ∈ range bs, ∑ ur ∈ range 4, ∑ lane ∈ range w,
            g (b * cb + sp * C + ur * w) lane := by
  induction nb with
  | zero => simp [accFullBlocks]
  | succ n ih =>
      have h4 : 4 ≤ u := by
        rcases h with h | h
        · exact h
        · omega
      simp only [accFullBlocks, StatCfg.unroll_c]
      rw [accBlock_total w C g _ 4 u h4 bs _, ih (Or.inl h4), Finset.sum_range_succ]
      rw [add_assoc]

lemma StatCfg.simd_w_pos (c : StatCfg) (hw : c.wf) : 0 < c.simd_w := by
  rcases hw with h | h <;> rw [h] <;> decide

lemma StatCfg.tail_lt (c : StatCfg) (hw : 0 < c.simd_w) : c.axis_simd_tail < c.simd_w :=
  Nat.mod_lt _ hw

lemma StatCfg.mod_cb_mod_w (c : StatCfg) :
    c.C_PER_G % c.c_block % c.simd_w = c.C_PER_G % c.simd_w :=
  Nat.mod_mod_of_dvd _ (dvd_mul_left c.simd_w StatCfg.unroll_c)

lemma StatCfg.uct_mul (c : StatCfg) (hw : 0 < c.simd_w) :
    c.unroll_c_tail * c.simd_w = c.c_block_tail := by
  have hmod := c.mod_cb_mod_w
  have hq := Nat.mod_add_div (c.C_PER_G % c.c_block) c.simd_w
  have hsub : c.C_PER_G % c.c_block - c.C_PER_G % c.c_block % c.simd_w
      = c.simd_w * (c.C_PER_G % c.c_block / c.simd_w) :=
    Nat.sub_eq_of_eq_add (by rw [add_comm]; exact hq.symm)
  unfold StatCfg.unroll_c_tail StatCfg.c_block_tail StatCfg.axis_simd_tail
  rw [← hmod, hsub, Nat.mul_div_cancel_left _ hw, mul_comm]

lemma StatCfg.cpg_decomp (c : StatCfg) (hw : 0 < c.simd_w) :
    c.nc_blocks * c.c_block + c.c_block_tail + c.axis_simd_tail = c.C_PER_G := by
  have hle : c.axis_simd_tail ≤ c.C_PER_G % c.c_block := by
    rw [StatCfg.axis_simd_tail, ← c.mod_cb_mod_w]
    exact Nat.mod_le _ _
  unfold StatCfg.nc_blocks StatCfg.c_block_tail
  rw [add_assoc, Nat.sub_add_cancel hle, Nat.div_add_mod']

lemma StatCfg.uct_le (c : StatCfg) (hw : 0 < c.simd_w) : c.unroll_c_tail ≤ 3 := by
  have hcb : c.c_block = 4 * c.simd_w := rfl
  have hcb0 : 0 < c.c_block := by
    rw [hcb]
    exact Nat.mul_pos (by decide) hw
  have h2 := Nat.mod_lt c.C_PER_G hcb0
  have h1 : c.c_block_tail < 4 * c.simd_w := by
    unfold StatCfg.c_block_tail
    rw [← hcb]
    exact Nat.lt_of_le_of_lt (Nat.sub_le _ _) h2
  have h3 : c.c_block_tail / c.simd_w < 4 := (Nat.div_lt_iff_lt_mul hw).mpr h1
  unfold StatCfg.unroll_c_tail
  exact Nat.lt_succ_iff.mp h3

lemma StatCfg.max_unroll_pos (c : StatCfg) : 1 ≤ c.max_unroll := by
  unfold StatCfg.max_unroll StatCfg.unroll_c
  split_ifs <;> omega

lemma StatCfg.max_unroll_cases (c : StatCfg) (hw : 0 < c.simd_w) :
    c.max_unroll = 1 ∨ c.max_unroll = 2 ∨ c.max_unroll = 3 ∨ c.max_unroll = 4 := by
  have h := c.uct_le hw
  unfold StatCfg.max_unroll StatCfg.unroll_c
  by_cases hnc : c.nc_blocks ≠ 0
  · rw [if_pos hnc]
    exact Or.inr (Or.inr (Or.inr rfl))
  · rw [if_neg hnc]
    by_cases h0 : c.unroll_c_tail ≠ 0
    · rw [if_pos h0]
      have h1 : 1 ≤ c.unroll_c_tail := Nat.pos_of_ne_zero h0
      rcases Nat.lt_or_ge c.unroll_c_tail 2 with h2 | h2
      · exact Or.inl (Nat.le_antisymm (Nat.lt_succ_iff.mp h2) h1)
      · rcases Nat.lt_or_ge c.unroll_c_tail 3 with h3 | h3
        · exact Or.inr (Or.inl (Nat.le_antisymm (Nat.lt_succ_iff.mp h3) h2))
        · exact Or.inr (Or.inr (Or.inl (Nat.le_antisymm h h3)))
    · rw [if_neg h0]
      exact Or.inl rfl

lemma StatCfg.uct_le_max (c : StatCfg) (hw : 0 < c.simd_w) :
    c.unroll_c_tail ≤ c.max_unroll := by
  have := c.uct_le hw
  unfold StatCfg.max_unroll StatCfg.unroll_c
  split_ifs <;> omega

lemma StatCfg.full_le_max (c : StatCfg) (h : c.nc_blocks ≠ 0) :
    StatCfg.unroll_c ≤ c.max_unroll := by
  unfold StatCfg.max_unroll
  simp [h]

lemma statAccum_total (c : StatCfg) (hw : 0 < c.simd_w) (g gt : ℕ → ℕ → ℚ) (bs : ℕ)
    (hgt0 : c.axis_simd_tail = 0 → ∀ base, ∑ lane ∈ range c.simd_w, gt base lane = 0) :
    accTotal c.simd_w c.max_unroll (statAccum c g gt bs)
      = (∑ b ∈ range c.nc_blocks, ∑ sp ∈ range bs, ∑ ur ∈ range 4,
            ∑ lane ∈ range c.simd_w, g (b * c.c_block + sp * c.C + ur * c.simd_w) lane)
        + (∑ sp ∈ range bs, ∑ ur ∈ range c.unroll_c_tail,
            ∑ lane ∈ range c.simd_w,
              g (c.nc_blocks * c.c_block + sp * c.C + ur * c.simd_w) lane)
        + (∑ sp ∈ range bs, ∑ lane ∈ range c.simd_w,
            gt (c.nc_blocks * c.c_block + c.c_block_tail + sp * c.C) lane) := by
  unfold statAccum
  set acc1 := accFullBlocks c.simd_w c.C c.c_block g bs c.nc_blocks (fun _ _ => 0) with hacc1
  have hT1 : accTotal c.simd_w c.max_unroll acc1
      = ∑ b ∈ range c.nc_blocks, ∑ sp ∈ range bs, ∑ ur ∈ range 4,
          ∑ lane ∈ range c.simd_w, g (b * c.c_block + sp * c.C + ur * c.simd_w) lane := by
    have hor : 4 ≤ c.max_unroll ∨ c.nc_blocks = 0 := by
      by_cases h : c.nc_blocks = 0
      · exact Or.inr h
      · exact Or.inl (c.full_le_max h)
    rw [hacc1, accFullBlocks_total c.simd_w c.C c.c_block g bs c.max_unroll c.nc_blocks hor]
    simp only [accTotal, Finset.sum_const_zero, zero_add]
  set acc2 := if c.unroll_c_tail ≠ 0 then
      accBlock c.simd_w c.C g (c.nc_blocks * c.c_block) c.unroll_c_tail bs acc1
    else acc1 with hacc2
  have hT2 : accTotal c.simd_w c.max_unroll acc2
      = accTotal c.simd_w c.max_unroll acc1
        + ∑ sp ∈ range bs, ∑ ur ∈ range c.unroll_c_tail, ∑ lane ∈ range c.simd_w,
            g (c.nc_blocks * c.c_block + sp * c.C + ur * c.simd_w) lane := by
    rw [hacc2]
    by_cases h : c.unroll_c_tail ≠ 0
    · rw [if_pos h]
      exact accBlock_total c.simd_w c.C g _ c.unroll_c_tail c.max_unroll
        (c.uct_le_max hw) bs acc1
    · rw [if_neg h]
      have h0 : c.unroll_c_tail = 0 := not_not.mp h
      simp only [h0, Finset.range_zero, Finset.sum_empty, Finset.sum_const_zero,
        add_zero]
  have hT3 : accTotal c.simd_w c.max_unroll
        (if c.axis_simd_tail ≠ 0 then
          accBlock c.simd_w c.C gt (c.nc_blocks * c.c_block + c.c_block_tail) 1 bs acc2
        else acc2)
      = accTotal c.simd_w c.max_unroll acc2
        + ∑ sp ∈ range bs, ∑ lane ∈ range c.simd_w,
            gt (c.nc_blocks * c.c_block + c.c_block_tail + sp * c.C) lane := by
    by_cases h : c.axis_simd_tail ≠ 0
    · rw [if_pos h]
      rw [accBlock_total c.simd_w c.C gt _ 1 c.max_unroll c.max_unroll_pos bs acc2]
      congr 1
      apply Finset.sum_congr rfl
      intro sp _
      rw [Finset.sum_range_one]
      simp only [Nat.zero_mul, Nat.add_zero]
    · rw [if_neg h]
      have h0 : c.axis_simd_tail = 0 := not_not.mp h
      have : ∑ sp ∈ range bs, ∑ lane ∈ range c.simd_w,
          gt (c.nc_blocks * c.c_block + c.c_block_tail + sp * c.C) lane = 0 :=
        Finset.sum_eq_zero (fun sp _ => hgt0 h0 _)
      rw [this, add_zero]
  rw [hT3, hT2, hT1]

lemma channel_decomp (c : StatCfg) (hw : 0 < c.simd_w) (f : ℕ → ℚ) :
    (∑ b ∈ range c.nc_blocks, ∑ ur ∈ range 4, ∑ lane ∈ range c.simd_w,
        f (b * c.c_block + ur * c.simd_w + lane))
    + (∑ ur ∈ range c.unroll_c_tail, ∑ lane ∈ range c.simd_w,
        f (c.nc_blocks * c.c_block + ur * c.simd_w + lane))
    + (∑ lane ∈ range c.axis_simd_tail,
        f (c.nc_blocks * c.c_block + c.c_block_tail + lane))
    = ∑ ch ∈ range c.C_PER_G, f ch := by
  have hcb : c.c_block = 4 * c.simd_w := rfl
  have hA : ∀ b : ℕ,
      (∑ ur ∈ range 4, ∑ lane ∈ range c.simd_w, f (b * c.c_block + ur * c.simd_w + lane))
        = ∑ y ∈ range c.c_block, f (b * c.c_block + y) := by
    intro b
    rw [hcb, ← sum_range_mul_collapse 4 c.simd_w (fun y => f (b * (4 * c.simd_w) + y))]
    apply Finset.sum_congr rfl
    intro ur _
    apply Finset.sum_congr rfl
    intro lane _
    rw [Nat.add_assoc]
  have hB :
      (∑ ur ∈ range c.unroll_c_tail, ∑ lane ∈ range c.simd_w,
          f (c.nc_blocks * c.c_block + ur * c.simd_w + lane))
        = ∑ y ∈ range c.c_block_tail, f (c.nc_blocks * c.c_block + y) := by
    rw [← c.uct_mul hw, ← sum_range_mul_collapse c.unroll_c_tail c.simd_w
      (fun y => f (c.nc_blocks * c.c_block + y))]
    apply Finset.sum_congr rfl
    intro ur _
    apply Finset.sum_congr rfl
    intro lane _
    rw [Nat.add_assoc]
  rw [Finset.sum_congr rfl (fun b _ => hA b), hB,
    sum_range_mul_collapse c.nc_blocks c.c_block f, ← c.cpg_decomp hw,
    Finset.sum_range_add, Finset.sum_range_add]

lemma statAccum_total_spec (c : StatCfg) (hw : 0 < c.simd_w) (g gt : ℕ → ℕ → ℚ)
    (h : ℕ → ℚ) (bs : ℕ)
    (hg : ∀ base lane, g base lane = h (base + lane))
    (hgt : ∀ base, ∑ lane ∈ range c.simd_w, gt base lane
        = ∑ lane ∈ range c.axis_simd_tail, h (base + lane)) :
    accTotal c.simd_w c.max_unroll (statAccum c g gt bs)
      = ∑ sp ∈ range bs, ∑ ch ∈ range c.C_PER_G, h (sp * c.C + ch) := by
  rw [statAccum_total c hw g gt bs (fun h0 base => by rw [hgt, h0]; simp)]
  have e1 : (∑ b ∈ range c.nc_blocks, ∑ sp ∈ range bs, ∑ ur ∈ range 4,
        ∑ lane ∈ range c.simd_w, g (b * c.c_block + sp * c.C + ur * c.simd_w) lane)
      = ∑ sp ∈ range bs, ∑ b ∈ range c.nc_blocks, ∑ ur ∈ range 4,
          ∑ lane ∈ range c.simd_w, h (sp * c.C + (b * c.c_block + ur * c.simd_w + lane)) := by
    rw [Finset.sum_comm]
    apply Finset.sum_congr rfl; intro sp _
    apply Finset.sum_congr rfl; intro b _
    apply Finset.sum_congr rfl; intro ur _
    apply Finset.sum_congr rfl; intro lane _
    rw [hg, idx_swap]
  have e2 : (∑ sp ∈ range bs, ∑ ur ∈ range c.unroll_c_tail, ∑ lane ∈ range c.simd_w,
        g (c.nc_blocks * c.c_block + sp * c.C + ur * c.simd_w) lane)
      = ∑ sp ∈ range bs, ∑ ur ∈ range c.unroll_c_tail, ∑ lane ∈ range c.simd_w,
          h (sp * c.C + (c.nc_blocks * c.c_block + ur * c.simd_w + lane)) := by
    apply Finset.sum_congr rfl; intro sp _
    apply Finset.sum_congr rfl; intro ur _
    apply Finset.sum_congr rfl; intro lane _
    rw [hg, idx_swap]
  have e3 : (∑ sp ∈ range bs, ∑ lane ∈ range c.simd_w,
        gt (c.nc_blocks * c.c_block + c.c_block_tail + sp * c.C) lane)
      = ∑ sp ∈ range bs, ∑ lane ∈ range c.axis_simd_tail,
          h (sp * c.C + (c.nc_blocks * c.c_block + c.c_block_tail + lane)) := by
    apply Finset.sum_congr rfl; intro sp _
    rw [hgt]
    apply Finset.sum_congr rfl; intro lane _
    rw [idx_swap2]
  rw [e1, e2, e3, ← Finset.sum_add_distrib, ← Finset.sum_add_distrib]
  apply Finset.sum_congr rfl
  intro sp _
  exact channel_decomp c hw (fun x => h (sp * c.C + x))

lemma reduceUnrolled_sum (c : StatCfg) (hw : 0 < c.simd_w) (acc : ℕ → ℕ → ℚ) :
    ∑ lane ∈ range c.simd_w, reduceUnrolled c acc lane
      = accTotal c.simd_w c.max_unroll acc := by
  rcases c.max_unroll_cases hw with h | h | h | h <;>
    simp [reduceUnrolled, h, accTotal, Finset.sum_range_succ, Finset.sum_add_distrib] <;>
    ring

lemma shuffle_sum_step (m : ℕ) (v : ℕ → ℚ)
    (hx : ∀ lane, lane < m → lane ^^^ m = lane + m) :
    ∑ lane ∈ range m, shuffleAdd m v lane = ∑ lane ∈ range (m + m), v lane := by
  unfold shuffleAdd
  rw [Finset.sum_add_distrib, Finset.sum_range_add]
  congr 1
  apply Finset.sum_congr rfl
  intro lane hl
  rw [hx lane (Finset.mem_range.mp hl), Nat.add_comm lane m]

lemma hsum8 (v : ℕ → ℚ) :
    shuffleAdd 1 (shuffleAdd 2 (shuffleAdd 4 v)) 0 = ∑ lane ∈ range 8, v lane := by
  have h0 : shuffleAdd 1 (shuffleAdd 2 (shuffleAdd 4 v)) 0
      = ∑ lane ∈ range 1, shuffleAdd 1 (shuffleAdd 2 (shuffleAdd 4 v)) lane :=
    (Finset.sum_range_one _).symm
  rw [h0, shuffle_sum_step 1 _ (by decide), show (1 + 1 : ℕ) = 2 from rfl,
    shuffle_sum_step 2 _ (by decide), show (2 + 2 : ℕ) = 4 from rfl,
    shuffle_sum_step 4 _ (by decide), show (4 + 4 : ℕ) = 8 from rfl]

lemma hsum16 (v : ℕ → ℚ) :
    shuffleAdd 1 (shuffleAdd 2 (shuffleAdd 4 (shuffleAdd 8 v))) 0
      = ∑ lane ∈ range 16, v lane := by
  have h0 : shuffleAdd 1 (shuffleAdd 2 (shuffleAdd 4 (shuffleAdd 8 v))) 0
      = ∑ lane ∈ range 1,
          shuffleAdd 1 (shuffleAdd 2 (shuffleAdd 4 (shuffleAdd 8 v))) lane :=
    (Finset.sum_range_one _).symm
  rw [h0, shuffle_sum_step 1 _ (by decide), show (1 + 1 : ℕ) = 2 from rfl,
    shuffle_sum_step 2 _ (by decide), show (2 + 2 : ℕ) = 4 from rfl,
    shuffle_sum_step 4 _ (by decide), show (4 + 4 : ℕ) = 8 from rfl,
    shuffle_sum_step 8 _ (by decide), show (8 + 8 : ℕ) = 16 from rfl]

lemma reduce_horizontal_lane0 (c : StatCfg) (hw : c.wf) (v : ℕ → ℚ) :
    reduce_horizontal c v 0 = ∑ lane ∈ range c.simd_w, v lane := by
  rcases hw with h | h
  · have h16 : ¬ (c.simd_w = 16) := by
      rw [h]
      decide
    rw [reduce_horizontal, if_neg h16, h]
    exact hsum8 v
  · rw [reduce_horizontal, if_pos h, h]
    exact hsum16 v

lemma statVec_lane0 (c : StatCfg) (hw : c.wf) (acc : ℕ → ℕ → ℚ) :
    statVec c acc 0
      = if kernelDividesInternally c
        then accTotal c.simd_w c.max_unroll acc / ((c.C_PER_G : ℚ) * (c.SP : ℚ))
        else accTotal c.simd_w c.max_unroll acc := by
  simp only [statVec]
  rw [reduce_horizontal_lane0 c hw, reduceUnrolled_sum c (c.simd_w_pos hw)]

lemma meanKernel_eq (c : StatCfg) (hw : c.wf) (src : ℕ → ℚ) (bs : ℕ) :
    meanKernel c src bs
      = if kernelDividesInternally c
        then groupSum c src bs / ((c.C_PER_G : ℚ) * (c.SP : ℚ))
        else groupSum c src bs := by
  have hw0 := c.simd_w_pos hw
  have htail := c.tail_lt hw0
  have hspec := statAccum_total_spec c hw0 (meanContrib c src false)
    (meanContrib c src true) src bs
    (fun base lane => rfl)
    (fun base => by
      have : ∀ lane : ℕ, meanContrib c src true base lane
          = if lane < c.axis_simd_tail then src (base + lane) else 0 := fun lane => rfl
      rw [Finset.sum_congr rfl (fun lane _ => this lane)]
      exact sum_range_ite_lt c.simd_w c.axis_simd_tail (le_of_lt htail) _)
  rw [meanKernel, meanAcc, statVec_lane0 c hw, hspec]
  rfl

lemma varKernel_eq (c : StatCfg) (hw : c.wf) (avx512 : Bool) (src : ℕ → ℚ) (m : ℚ)
    (bs : ℕ) :
    varKernel c avx512 src m bs
      = if kernelDividesInternally c
        then groupSqSum c src m bs / ((c.C_PER_G : ℚ) * (c.SP : ℚ))
        else groupSqSum c src m bs := by
  have hw0 := c.simd_w_pos hw
  have htail := c.tail_lt hw0
  have hlane : ∀ base lane : ℕ, varContrib c avx512 src m true base lane
      = if lane < c.axis_simd_tail then (src (base + lane) - m) ^ 2 else 0 := by
    intro base lane
    cases avx512
    · by_cases hl : lane < c.axis_simd_tail
      · rw [if_pos hl]
        show ((if lane < c.axis_simd_tail then src (base + lane) else 0)
            - (if lane < c.axis_simd_tail then m else 0))
          * ((if lane < c.axis_simd_tail then src (base + lane) else 0)
            - (if lane < c.axis_simd_tail then m else 0))
          = (src (base + lane) - m) ^ 2
        rw [if_pos hl, if_pos hl, pow_two]
      · rw [if_neg hl]
        show ((if lane < c.axis_simd_tail then src (base + lane) else 0)
            - (if lane < c.axis_simd_tail then m else 0))
          * ((if lane < c.axis_simd_tail then src (base + lane) else 0)
            - (if lane < c.axis_simd_tail then m else 0))
          = 0
        rw [if_neg hl, if_neg hl, sub_zero, mul_zero]
    · by_cases hl : lane < c.axis_simd_tail
      · rw [if_pos hl]
        show (if lane < c.axis_simd_tail
              then (if lane < c.axis_simd_tail then src (base + lane) else 0) - m
              else (if lane < c.axis_simd_tail then src (base + lane) else 0))
          * (if lane < c.axis_simd_tail
              then (if lane < c.axis_simd_tail then src (base + lane) else 0) - m
              else (if lane < c.axis_simd_tail then src (base + lane) else 0))
          = (src (base + lane) - m) ^ 2
        rw [if_pos hl, if_pos hl, pow_two]
      · rw [if_neg hl]
        show (if lane < c.axis_simd_tail
              then (if lane < c.axis_simd_tail then src (base + lane) else 0) - m
              else (if lane < c.axis_simd_tail then src (base + lane) else 0))
          * (if lane < c.axis_simd_tail
              then (if lane < c.axis_simd_tail then src (base + lane) else 0) - m
              else (if lane < c.axis_simd_tail then src (base + lane) else 0))
          = 0
        rw [if_neg hl, if_neg hl, mul_zero]
  have hspec := statAccum_total_spec c hw0 (varContrib c avx512 src m false)
    (varContrib c avx512 src m true) (fun idx => (src idx - m) ^ 2) bs
    (fun base lane => by
      show (src (base + lane) - m) * (src (base + lane) - m)
        = (src (base + lane) - m) ^ 2
      rw [pow_two])
    (fun base => by
      rw [Finset.sum_congr rfl (fun lane _ => hlane base lane)]
      exact sum_range_ite_lt c.simd_w c.axis_simd_tail (le_of_lt htail) _)
  rw [varKernel, varAcc, statVec_lane0 c hw, hspec]
  rfl

/-- Build-time configuration of the normalize kernel `kernel_t`: vector width,
channel stride `C_`, channels per group, the affine/quantization/post-op flags
and `eps_`. -/
structure NormCfg where
  simd_w : ℕ
  C : ℕ
  C_PER_G : ℕ
  use_scale : Bool
  use_shift : Bool
  with_src_scales : Bool
  with_postops : Bool
  with_dst_scales : Bool
  eps : ℚ

/-- `axis_simd_tail_` of the normalize kernel. -/
def NormCfg.axis_simd_tail (n : NormCfg) : ℕ := n.C_PER_G % n.simd_w

/-- Per-lane data flow of `kernel_t::compute_dst_body`, in exactly the emitted
instruction order: add epsilon to the broadcast variance, take the square
root, divide ones by it (`uni_vdivps(vmm_inv_sqrtvar, vmm_ones, ...)`, an
exact divide rather than a reciprocal approximation), subtract the broadcast
mean, multiply by the reciprocal, apply scale/shift (a single
`uni_vfmadd213ps` when both are configured, independent multiply/add
otherwise), multiply by the source quantization scale, run the post-op
injector, multiply by the destination quantization scale, and finally convert
for the store.  `sqrtf` abstracts `uni_vsqrtps`, `postf` the injected post-op
chain, and `conv` the saturating destination-type conversion of the io store
helper. -/
def dstLane (n : NormCfg) (sqrtf postf conv : ℚ → ℚ)
    (x scalev shiftv m v srcScale dstScale : ℚ) : ℚ :=
  let inv0 := v + n.eps
  let inv1 := sqrtf inv0
  let inv_sqrtvar := 1 / inv1
  let d0 := x - m
  let d1 := d0 * inv_sqrtvar
  let d2 :=
    if n.use_scale && n.use_shift then d1 * scalev + shiftv
    else
      let da := if n.use_scale then d1 * scalev else d1
      if n.use_shift then da + shiftv else da
  let d3 := if n.with_src_scales then d2 * srcScale else d2
  let d4 := if n.with_postops then postf d3 else d3
  let d5 := if n.with_dst_scales then d4 * dstScale else d4
  conv d5

/-- Value stored by the normalize kernel at spatial position `sp` and group
channel `ch` (`ch < C_PER_G`, the only lanes the possibly-masked store
writes): every vector operation of `compute_dst_body` is lane-wise, and for a
stored lane the masked loads return the actual source/scale/shift elements. -/
def computeDstVal (n : NormCfg) (sqrtf postf conv : ℚ → ℚ)
    (src scaleArr shiftArr : ℕ → ℚ) (m v srcScale dstScale : ℚ) (sp ch : ℕ) : ℚ :=
  dstLane n sqrtf postf conv (src (sp * n.C + ch)) (scaleArr ch) (shiftArr ch)
    m v srcScale dstScale

/-- Pointwise update of a float buffer (a single 4-byte store). -/
def writeAt (mem : ℕ → ℚ) (i : ℕ) (v : ℚ) : ℕ → ℚ :=
  fun j => if j = i then v else mem j

/-- Masked vector store of the io helper: only the `len` leading lanes are
written, at positions `ptr, …, ptr + len - 1`. -/
def storeVec (mem : ℕ → ℚ) (ptr : ℕ) (v : ℕ → ℚ) (len : ℕ) : ℕ → ℚ :=
  fun j => if ptr ≤ j ∧ j < ptr + len then v (j - ptr) else mem j

/-- A mean-kernel invocation as a memory effect: `io_stat_` stores `vmm_stat`
through its one-element tail mask at `mean_ptr(0)`. -/
def meanKernelCall (c : StatCfg) (src : ℕ → ℚ) (bs : ℕ) (mem : ℕ → ℚ) (ptr : ℕ) :
    ℕ → ℚ :=
  storeVec mem ptr (statVec c (meanAcc c src bs)) 1

/-- A variance-kernel invocation as a memory effect (store at `var_ptr(0)`). -/
def varKernelCall (c : StatCfg) (avx512 : Bool) (src : ℕ → ℚ) (m : ℚ) (bs : ℕ)
    (mem : ℕ → ℚ) (ptr : ℕ) : ℕ → ℚ :=
  storeVec mem ptr (statVec c (varAcc c avx512 src m bs)) 1

/-- Memory viewed from a shifted base pointer. -/
def shiftSrc (src : ℕ → ℚ) (off : ℕ) : ℕ → ℚ :=
  fun j => src (off + j)

lemma storeVec_one (mem : ℕ → ℚ) (ptr : ℕ) (v : ℕ → ℚ) :
    storeVec mem ptr v 1 = writeAt mem ptr (v 0) := by
  funext j
  unfold storeVec writeAt
  by_cases h : j = ptr
  · subst h
    have h1 : j ≤ j ∧ j < j + 1 := ⟨Nat.le_refl j, Nat.lt_succ_self j⟩
    rw [if_pos h1, if_pos rfl, Nat.sub_self]
  · have h1 : ¬ (ptr ≤ j ∧ j < ptr + 1) :=
      fun hc => h (Nat.le_antisymm (Nat.lt_succ_iff.mp hc.2) hc.1)
    rw [if_neg h1, if_neg h]

/-- Shapes and attributes of one primitive instance as seen by
`execute_forward`.  For the supported dense channel-last tags
(`ndhwc, nhwc, nwc, nc`) the padded channel count equals `C`, so a single `C`
serves both as the scheduler's `C_padded` stride and the kernels' `C_`
stride. -/
structure ExecCfg where
  N : ℕ
  G : ℕ
  C_PER_G : ℕ
  SP : ℕ
  simd_w : ℕ
  nthr : ℕ
  stats_is_src : Bool
  use_scale : Bool
  use_shift : Bool
  with_src_scales : Bool
  with_postops : Bool
  with_dst_scales : Bool
  eps : ℚ

/-- `C = G * C_PER_G` (the dispatch requires `C mod G = 0`). -/
def ExecCfg.C (e : ExecCfg) : ℕ := e.G * e.C_PER_G

/-- The statistics-kernel configuration built for this primitive. -/
def ExecCfg.statCfg (e : ExecCfg) : StatCfg := ⟨e.simd_w, e.C, e.C_PER_G, e.SP⟩

/-- The normalize-kernel configuration built for this primitive. -/
def ExecCfg.normCfg (e : ExecCfg) : NormCfg :=
  ⟨e.simd_w, e.C, e.C_PER_G, e.use_scale, e.use_shift, e.with_src_scales,
    e.with_postops, e.with_dst_scales, e.eps⟩

/-- `calculate_stats = !pd()->stats_is_src()`. -/
def ExecCfg.calculate_stats (e : ExecCfg) : Bool := !e.stats_is_src

/-- Buffers written by `execute_forward`, plus a counter of statistics-kernel
invocations. -/
structure ExecSt where
  mean : ℕ → ℚ
  var : ℕ → ℚ
  dst : ℕ → ℚ
  statCalls : ℕ

/-- Aggregate effect of one normalize-kernel invocation: the generated loop
walks `bs` spatial positions from byte offset `off`, storing lanes
`ch < C_PER_G` at element `off + sp * C + ch` (the final partial vector under
the tail mask); distinct `(sp, ch)` pairs hit distinct addresses, so the
loop's effect is this pointwise map. -/
def writeBlockDst (n : NormCfg) (sqrtf postf conv : ℚ → ℚ)
    (src scaleArr shiftArr : ℕ → ℚ) (m v srcScale dstScale : ℚ)
    (off bs : ℕ) (d : ℕ → ℚ) : ℕ → ℚ :=
  fun j =>
    if off ≤ j ∧ (j - off) / n.C < bs ∧ (j - off) % n.C < n.C_PER_G then
      computeDstVal n sqrtf postf conv src scaleArr shiftArr m v srcScale dstScale
        ((j - off) / n.C) ((j - off) % n.C)
    else d j

/-- `data_off` of a strategy-A work unit `i`:
`(i / G) * stride_n + (i % G) * C_PER_G` with `stride_n = SP * C_padded`. -/
def unitOff (e : ExecCfg) (i : ℕ) : ℕ :=
  (i / e.G) * (e.SP * e.C) + (i % e.G) * e.C_PER_G

/-- Body of the strategy-A unit loop: mean kernel, variance kernel (both only
when `calculate_stats`, each writing the single stat entry `i`), then the
normalize kernel over the whole spatial extent of the unit. -/
def stratAStep (e : ExecCfg) (avx512 : Bool) (src scaleArr shiftArr : ℕ → ℚ)
    (srcScale dstScale : ℚ) (sqrtf postf conv : ℚ → ℚ) (st : ExecSt) (i : ℕ) : ExecSt :=
  let off := unitOff e i
  let mean1 := if e.calculate_stats then
      meanKernelCall e.statCfg (shiftSrc src off) e.SP st.mean i
    else st.mean
  let var1 := if e.calculate_stats then
      varKernelCall e.statCfg avx512 (shiftSrc src off) (mean1 i) e.SP st.var i
    else st.var
  let dst1 := writeBlockDst e.normCfg sqrtf postf conv (shiftSrc src off)
      (shiftSrc scaleArr ((i % e.G) * e.C_PER_G))
      (shiftSrc shiftArr ((i % e.G) * e.C_PER_G))
      (mean1 i) (var1 i) srcScale dstScale off e.SP st.dst
  ⟨mean1, var1, dst1, st.statCalls + if e.calculate_stats then 2 else 0⟩

/-- Strategy A (`C_PER_G >= 32`): the `balance211` thread partition covers
`i ∈ [0, G * N)` exactly once each, and every iteration writes per-`i`
disjoint locations, so the parallel region equals this sequential fold. -/
def stratA (e : ExecCfg) (avx512 : Bool) (src scaleArr shiftArr : ℕ → ℚ)
    (srcScale dstScale : ℚ) (sqrtf postf conv : ℚ → ℚ) (st0 : ExecSt) : ExecSt :=
  (List.range (e.G * e.N)).foldl
    (stratAStep e avx512 src scaleArr shiftArr srcScale dstScale sqrtf postf conv) st0

/-- `nthr_per_g = min(nthr, G)`. -/
def nthr_per_g (e : ExecCfg) : ℕ := min e.nthr e.G

/-- Start of spatial chunk `k` when a group's spatial extent `SP` is split
among `t` threads: `k * SP_chunk` with `SP_chunk = SP / t`. -/
def chunkStart (SP t k : ℕ) : ℕ := k * (SP / t)

/-- `kernel_sp_block_size`: the last chunk (`k = t - 1`) takes
`SP_tail_chunk = SP - k * SP_chunk`, the others take `SP_chunk`. -/
def chunkSize (SP t k : ℕ) : ℕ :=
  if k = t - 1 then SP - (t - 1) * (SP / t) else SP / t

/-- `g_per_n = G * nthr_per_g`. -/
def g_per_n (e : ExecCfg) : ℕ := e.G * nthr_per_g e

/-- The chunk index `(i % g_per_n) / G` of work item `i`. -/
def chunkIdxOf (e : ExecCfg) (i : ℕ) : ℕ := (i % g_per_n e) / e.G

/-- `data_off` of a strategy-B work item:
`ithr_stride_n + ithr_stride_g + ithr_stride_sp`. -/
def offB (e : ExecCfg) (i : ℕ) : ℕ :=
  (i / g_per_n e) * (e.C * e.SP) + (i % e.G) * e.C_PER_G
    + chunkIdxOf e i * (e.C * (e.SP / nthr_per_g e))

/-- The spatial block size passed to the kernels for work item `i`. -/
def bsB (e : ExecCfg) (i : ℕ) : ℕ := chunkSize e.SP (nthr_per_g e) (chunkIdxOf e i)

/-- The finalized-stat index `(i % G) + (i / g_per_n) * G` read by the
variance and normalize passes of strategy B. -/
def statIdxB (e : ExecCfg) (i : ℕ) : ℕ := (i % e.G) + (i / g_per_n e) * e.G

/-- Strategy-B phase 1: every work item `i < G * N * nthr_per_g` runs the mean
kernel over its spatial chunk, writing the un-divided partial sum into its own
scratch slot `stat_reduction + i`; slots are disjoint, so the parallel phase
equals this fold. -/
def stratBMeanPhase (e : ExecCfg) (src : ℕ → ℚ) (scratch : ℕ → ℚ) : ℕ → ℚ :=
  (List.range (e.G * e.N * nthr_per_g e)).foldl
    (fun mem i => meanKernelCall e.statCfg (shiftSrc src (offB e i)) (bsB e i) mem i)
    scratch

/-- Strategy-B phase 3: the variance kernel over the same partition, reading
the finalized mean at `statIdxB` and writing partial sums of squares into
scratch. -/
def stratBVarPhase (e : ExecCfg) (avx512 : Bool) (src : ℕ → ℚ)
    (mean1 scratch : ℕ → ℚ) : ℕ → ℚ :=
  (List.range (e.G * e.N * nthr_per_g e)).foldl
    (fun mem i => varKernelCall e.statCfg avx512 (shiftSrc src (offB e i))
      (mean1 (statIdxB e i)) (bsB e i) mem i)
    scratch

/-- The `reduce` lambda of strategy B: zero `stat[0, G*N)`, accumulate every
thread slot `tmp_stat[n * nthr_per_g * G + ithr * G + g]` into
`stat[n * G + g]`, then divide everything by `C_PER_G * SP`.  For
`j = n * G + g < G * N` the final value is the closed sum below; other
entries are untouched. -/
def reduceStat (e : ExecCfg) (tmp stat : ℕ → ℚ) : ℕ → ℚ :=
  fun j =>
    if j < e.G * e.N then
      (∑ k ∈ range (nthr_per_g e),
          tmp ((j / e.G) * (nthr_per_g e * e.G) + k * e.G + j % e.G))
        / ((e.C_PER_G : ℚ) * (e.SP : ℚ))
    else stat j

/-- Strategy-B final phase: normalize over the same spatial partition, using
the finalized mean/variance. -/
def stratBNormPhase (e : ExecCfg) (sqrtf postf conv : ℚ → ℚ)
    (src scaleArr shiftArr : ℕ → ℚ) (srcScale dstScale : ℚ)
    (mean1 var1 : ℕ → ℚ) (dst0 : ℕ → ℚ) : ℕ → ℚ :=
  (List.range (e.G * e.N * nthr_per_g e)).foldl
    (fun d i => writeBlockDst e.normCfg sqrtf postf conv (shiftSrc src (offB e i))
      (shiftSrc scaleArr ((i % e.G) * e.C_PER_G))
      (shiftSrc shiftArr ((i % e.G) * e.C_PER_G))
      (mean1 (statIdxB e i)) (var1 (statIdxB e i)) srcScale dstScale
      (offB e i) (bsB e i) d)
    dst0

/-- Strategy B (`C_PER_G < 32`): mean phase, mean reduce, variance phase,
variance reduce — all four only under `if (calculate_stats)` — then the
normalize phase. -/
def stratB (e : ExecCfg) (avx512 : Bool) (src scaleArr shiftArr : ℕ → ℚ)
    (srcScale dstScale : ℚ) (sqrtf postf conv : ℚ → ℚ) (st0 : ExecSt)
    (scratch0 : ℕ → ℚ) : ExecSt :=
  if e.calculate_stats then
    let scr1 := stratBMeanPhase e src scratch0
    let mean1 := reduceStat e scr1 st0.mean
    let scr2 := stratBVarPhase e avx512 src mean1 scr1
    let var1 := reduceStat e scr2 st0.var
    let dst1 := stratBNormPhase e sqrtf postf conv src scaleArr shiftArr
      srcScale dstScale mean1 var1 st0.dst
    ⟨mean1, var1, dst1, st0.statCalls + 2 * (e.G * e.N * nthr_per_g e)⟩
  else
    ⟨st0.mean, st0.var,
      stratBNormPhase e sqrtf postf conv src scaleArr shiftArr srcScale dstScale
        st0.mean st0.var st0.dst,
      st0.statCalls⟩

/-- Verbose dispatch reasons of the `VDISPATCH_GNORM` checks in `pd_t::init`. -/
inductive Reason where
  | bad_propkind
  | unsupported_isa
  | empty_tensor
  | unsupported_dt
  | isa_dt_mismatch
  | unsupported_attr
  | unsupported_scales_cfg
  | unsupported_tag
  | instance_norm
  | unsupported_postop
  deriving DecidableEq

/-- `status_t` values produced by this translation unit: `pd_t::init` either
succeeds or reports a structured unsupported-configuration condition, and
`execute_forward` only ever returns `status::success`. -/
inductive Status where
  | success
  | unimplemented (r : Reason)
  deriving DecidableEq

/-- `execute_forward`: dispatch on `C_PER_G >= 32` between the two
parallelization strategies; the function body has a single
`return status::success` and no failure path. -/
def executeModel (e : ExecCfg) (avx512 : Bool) (src scaleArr shiftArr : ℕ → ℚ)
    (srcScale dstScale : ℚ) (sqrtf postf conv : ℚ → ℚ)
    (meanIn varIn dstIn scratchIn : ℕ → ℚ) : ExecSt × Status :=
  let st0 : ExecSt := ⟨meanIn, varIn, dstIn, 0⟩
  let st1 :=
    if schedulerSelectsA e.C_PER_G then
      stratA e avx512 src scaleArr shiftArr srcScale dstScale sqrtf postf conv st0
    else
      stratB e avx512 src scaleArr shiftArr srcScale dstScale sqrtf postf conv st0 scratchIn
  (st1, Status.success)

/-- Element data types; `other` stands for any type outside the accepted
list. -/
inductive DataType where
  | f32
  | bf16
  | f16
  | s8
  | u8
  | other
  deriving DecidableEq

/-- `utils::one_of(dt, f32, bf16, f16, s8, u8)`. -/
def dt_ok (d : DataType) : Bool :=
  decide (d = DataType.f32 ∨ d = DataType.bf16 ∨ d = DataType.f16
    ∨ d = DataType.s8 ∨ d = DataType.u8)

/-- The dispatch-relevant facts about one primitive descriptor.  The external
predicates evaluated by `pd_t::init` (ISA probes, attribute defaults, scale
configuration, format matching against the channel-last tags, post-op
validation) are recorded as the booleans those checks return. -/
structure PdConfig where
  is_fwd : Bool
  mayiuse_avx2 : Bool
  mayiuse_avx512_core : Bool
  mayiuse_avx2_vnni_2 : Bool
  mayiuse_avx512_core_fp16 : Bool
  has_zero_dim_memory : Bool
  src_dt : DataType
  dst_dt : DataType
  attr_default_ok : Bool
  attr_scales_ok : Bool
  set_default_formats_ok : Bool
  src_tag_ok : Bool
  dst_tag_ok : Bool
  C : ℕ
  G : ℕ
  attr_post_op_formats_ok : Bool
  post_ops_ok : Bool

/-- `pd_t::init`: the ordered `VDISPATCH_GNORM` chain.  Every failing check
returns `status::unimplemented` with its verbose reason before any kernel is
created (kernels are only built after `init` returns success), and the group
check rejects `C_PER_G = C / G ≤ 1`. -/
def pd_init (p : PdConfig) : Status :=
  if !p.is_fwd then Status.unimplemented Reason.bad_propkind
  else if !p.mayiuse_avx2 then Status.unimplemented Reason.unsupported_isa
  else if p.has_zero_dim_memory then Status.unimplemented Reason.empty_tensor
  else if !dt_ok p.src_dt then Status.unimplemented Reason.unsupported_dt
  else if !dt_ok p.dst_dt then Status.unimplemented Reason.unsupported_dt
  else if (p.src_dt = DataType.bf16 ∨ p.dst_dt = DataType.bf16)
      ∧ ¬(p.mayiuse_avx512_core ∨ p.mayiuse_avx2_vnni_2) then
    Status.unimplemented Reason.isa_dt_mismatch
  else if (p.src_dt = DataType.f16 ∨ p.dst_dt = DataType.f16)
      ∧ ¬(p.mayiuse_avx512_core_fp16 ∨ p.mayiuse_avx2_vnni_2) then
    Status.unimplemented Reason.isa_dt_mismatch
  else if !p.attr_default_ok then Status.unimplemented Reason.unsupported_attr
  else if !p.attr_scales_ok then Status.unimplemented Reason.unsupported_scales_cfg
  else if !p.set_default_formats_ok then Status.unimplemented Reason.unsupported_tag
  else if !p.src_tag_ok then Status.unimplemented Reason.unsupported_tag
  else if !p.dst_tag_ok then Status.unimplemented Reason.unsupported_tag
  else if ¬ (1 < p.C / p.G) then Status.unimplemented Reason.instance_norm
  else if !p.attr_post_op_formats_ok then Status.unimplemented Reason.unsupported_postop
  else if !p.post_ops_ok then Status.unimplemented Reason.unsupported_postop
  else Status.success

lemma foldl_write_eq (step : (ℕ → ℚ) → ℕ → (ℕ → ℚ)) (v : ℕ → ℚ)
    (hstep : ∀ mem i j, step mem i j = if j = i then v i else mem j)
    (n : ℕ) (m0 : ℕ → ℚ) (j : ℕ) :
    (List.range n).foldl step m0 j = if j < n then v j else m0 j := by
  induction n with
  | zero => rw [List.range_zero, List.foldl_nil, if_neg (Nat.not_lt_zero j)]
  | succ k ih =>
      rw [List.range_succ, List.foldl_append, List.foldl_cons, List.foldl_nil, hstep]
      by_cases hj : j = k
      · rw [if_pos hj, if_pos (by rw [hj]; exact Nat.lt_succ_self k)]
        rw [hj]
      · rw [if_neg hj, ih]
        by_cases h2 : j < k
        · rw [if_pos h2, if_pos (Nat.lt_succ_of_lt h2)]
        · rw [if_neg h2, if_neg (fun hc =>
            hj (Nat.le_antisymm (Nat.lt_succ_iff.mp hc) (Nat.not_lt.mp h2)))]

lemma stratBMeanPhase_eq (e : ExecCfg) (src scratch : ℕ → ℚ) (j : ℕ) :
    stratBMeanPhase e src scratch j
      = if j < e.G * e.N * nthr_per_g e
        then meanKernel e.statCfg (shiftSrc src (offB e j)) (bsB e j)
        else scratch j :=
  foldl_write_eq _
    (fun i => meanKernel e.statCfg (shiftSrc src (offB e i)) (bsB e i))
    (fun mem i j => by rw [meanKernelCall, storeVec_one]; rfl) _ scratch j

lemma stratBVarPhase_eq (e : ExecCfg) (avx512 : Bool) (src mean1 scratch : ℕ → ℚ)
    (j : ℕ) :
    stratBVarPhase e avx512 src mean1 scratch j
      = if j < e.G * e.N * nthr_per_g e
        then varKernel e.statCfg avx512 (shiftSrc src (offB e j))
          (mean1 (statIdxB e j)) (bsB e j)
        else scratch j :=
  foldl_write_eq _
    (fun i => varKernel e.statCfg avx512 (shiftSrc src (offB e i))
      (mean1 (statIdxB e i)) (bsB e i))
    (fun mem i j => by rw [varKernelCall, storeVec_one]; rfl) _ scratch j

lemma chunk_tiling_aux (q s SP : ℕ) (hle : s * q ≤ SP) (f : ℕ → ℚ) :
    (∑ k ∈ range s, ∑ sp ∈ range q, f (k * q + sp))
      + (∑ sp ∈ range (SP - s * q), f (s * q + sp))
      = ∑ sp ∈ range SP, f sp := by
  rw [sum_range_mul_collapse s q f]
  have h2 : ∑ sp ∈ range SP, f sp
      = (∑ x ∈ range (s * q), f x) + ∑ sp ∈ range (SP - s * q), f (s * q + sp) := by
    rw [← Finset.sum_range_add]
    have h3 : s * q + (SP - s * q) = SP := Nat.add_sub_cancel' hle
    rw [h3]
  rw [h2]

lemma chunk_tiling (SP t : ℕ) (ht : 0 < t) (f : ℕ → ℚ) :
    ∑ k ∈ range t, ∑ sp ∈ range (chunkSize SP t k), f (chunkStart SP t k + sp)
      = ∑ sp ∈ range SP, f sp := by
  obtain ⟨s, rfl⟩ : ∃ s, t = s + 1 := ⟨t - 1, (Nat.succ_pred_eq_of_pos ht).symm⟩
  have hle : s * (SP / (s + 1)) ≤ SP :=
    Nat.le_trans (Nat.mul_le_mul_right _ (Nat.le_succ s))
      (Nat.le_trans (Nat.le_of_eq (Nat.mul_comm (s + 1) (SP / (s + 1))))
        (Nat.div_mul_le_self SP (s + 1)))
  rw [Finset.sum_range_succ]
  have hmid : ∀ k ∈ range s,
      (∑ sp ∈ range (chunkSize SP (s + 1) k), f (chunkStart SP (s + 1) k + sp))
        = ∑ sp ∈ range (SP / (s + 1)), f (k * (SP / (s + 1)) + sp) := by
    intro k hk
    have hk2 : ¬ (k = s + 1 - 1) := Nat.ne_of_lt (Finset.mem_range.mp hk)
    unfold chunkSize chunkStart
    rw [if_neg hk2]
  have hlast : chunkSize SP (s + 1) s = SP - s * (SP / (s + 1)) := by
    unfold chunkSize
    rw [if_pos (Nat.succ_sub_one s).symm, Nat.succ_sub_one]
  rw [Finset.sum_congr rfl hmid]
  have hstart : chunkStart SP (s + 1) s = s * (SP / (s + 1)) := rfl
  rw [hlast, hstart]
  exact chunk_tiling_aux (SP / (s + 1)) s SP hle f

lemma slotDecode (G t n k g : ℕ) (hg : g < G) (hk : k < t) :
    (n * (t * G) + k * G + g) % G = g
    ∧ (n * (t * G) + k * G + g) % (G * t) / G = k
    ∧ (n * (t * G) + k * G + g) / (G * t) = n := by
  have hG : 0 < G := Nat.lt_of_le_of_lt (Nat.zero_le g) hg
  have ht0 : 0 < t := Nat.lt_of_le_of_lt (Nat.zero_le k) hk
  have hkg : k * G + g < G * t := by
    have h1 : k * G + g < (k + 1) * G := by
      rw [Nat.succ_mul]
      exact Nat.add_lt_add_left hg (k * G)
    have h2 : (k + 1) * G ≤ t * G := Nat.mul_le_mul_right G hk
    rw [Nat.mul_comm G t]
    exact Nat.lt_of_lt_of_le h1 h2
  have harr : n * (t * G) + k * G + g = (k * G + g) + n * (G * t) := by
    rw [Nat.mul_comm t G, Nat.add_comm (n * (G * t)) (k * G),
      Nat.add_right_comm (k * G) (n * (G * t)) g]
  refine ⟨?_, ?_, ?_⟩
  · have h3 : n * (t * G) + k * G + g = g + (k + n * t) * G := by
      rw [Nat.add_mul, Nat.mul_assoc, Nat.add_comm (k * G) (n * (t * G)),
        Nat.add_comm (n * (t * G) + k * G) g]
    rw [h3, Nat.add_mul_mod_self_right, Nat.mod_eq_of_lt hg]
  · rw [harr, Nat.add_mul_mod_self_right, Nat.mod_eq_of_lt hkg]
    have h4 : k * G + g = g + G * k := by
      rw [Nat.mul_comm G k, Nat.add_comm (k * G) g]
    rw [h4, Nat.add_mul_div_left _ _ hG, Nat.div_eq_of_lt hg, Nat.zero_add]
  · rw [harr, Nat.add_mul_div_right _ _ (Nat.mul_pos hG ht0),
      Nat.div_eq_of_lt hkg, Nat.zero_add]

lemma slot_lt (G N t n k g : ℕ) (hn : n < N) (hk : k < t) (hg : g < G) :
    n * (t * G) + k * G + g < G * N * t := by
  have h1 : k * G + g < t * G := by
    have h2 : k * G + g < (k + 1) * G := by
      rw [Nat.succ_mul]
      exact Nat.add_lt_add_left hg (k * G)
    exact Nat.lt_of_lt_of_le h2 (Nat.mul_le_mul_right G hk)
  have h4 : n * (t * G) + k * G + g < (n + 1) * (t * G) := by
    rw [Nat.succ_mul, Nat.add_assoc]
    exact Nat.add_lt_add_left h1 (n * (t * G))
  have h5 : (n + 1) * (t * G) ≤ N * (t * G) := Nat.mul_le_mul_right (t * G) hn
  have h6 : N * (t * G) = G * N * t := by
    rw [Nat.mul_comm t G, ← Nat.mul_assoc, Nat.mul_comm N G]
  exact Nat.lt_of_lt_of_le h4 (h6 ▸ h5)

lemma slot_fields (e : ExecCfg) (n k g : ℕ) (hg : g < e.G) (hk : k < nthr_per_g e) :
    chunkIdxOf e (n * (nthr_per_g e * e.G) + k * e.G + g) = k
    ∧ (n * (nthr_per_g e * e.G) + k * e.G + g) % e.G = g
    ∧ (n * (nthr_per_g e * e.G) + k * e.G + g) / g_per_n e = n
    ∧ statIdxB e (n * (nthr_per_g e * e.G) + k * e.G + g) = g + n * e.G
    ∧ offB e (n * (nthr_per_g e * e.G) + k * e.G + g)
        = n * (e.C * e.SP) + g * e.C_PER_G
          + k * (e.C * (e.SP / nthr_per_g e))
    ∧ bsB e (n * (nthr_per_g e * e.G) + k * e.G + g)
        = chunkSize e.SP (nthr_per_g e) k := by
  obtain ⟨hmod, hdivmod, hdiv⟩ := slotDecode e.G (nthr_per_g e) n k g hg hk
  have hidx : chunkIdxOf e (n * (nthr_per_g e * e.G) + k * e.G + g) = k := by
    unfold chunkIdxOf g_per_n
    exact hdivmod
  have hdiv2 : (n * (nthr_per_g e * e.G) + k * e.G + g) / g_per_n e = n := by
    unfold g_per_n
    exact hdiv
  refine ⟨hidx, hmod, hdiv2, ?_, ?_, ?_⟩
  · unfold statIdxB
    rw [hmod, hdiv2]
  · unfold offB
    rw [hidx, hmod, hdiv2]
  · unfold bsB
    rw [hidx]

lemma statCfg_no_div (e : ExecCfg) (hB : e.C_PER_G < 32) :
    kernelDividesInternally e.statCfg = false := by
  unfold kernelDividesInternally ExecCfg.statCfg
  simp only [decide_eq_false_iff_not, not_le]
  exact hB

lemma shift_groupSum (c : StatCfg) (src : ℕ → ℚ) (off bs : ℕ) :
    groupSum c (shiftSrc src off) bs
      = ∑ sp ∈ range bs, ∑ ch ∈ range c.C_PER_G, src (off + sp * c.C + ch) := by
  unfold groupSum shiftSrc
  apply Finset.sum_congr rfl
  intro sp _
  apply Finset.sum_congr rfl
  intro ch _
  rw [Nat.add_assoc]

lemma shift_groupSqSum (c : StatCfg) (src : ℕ → ℚ) (m : ℚ) (off bs : ℕ) :
    groupSqSum c (shiftSrc src off) m bs
      = ∑ sp ∈ range bs, ∑ ch ∈ range c.C_PER_G,
          (src (off + sp * c.C + ch) - m) ^ 2 := by
  unfold groupSqSum shiftSrc
  apply Finset.sum_congr rfl
  intro sp _
  apply Finset.sum_congr rfl
  intro ch _
  rw [Nat.add_assoc]

lemma stratB_mean_slots (e : ExecCfg) (hw : e.statCfg.wf) (hB : e.C_PER_G < 32)
    (ht : 0 < nthr_per_g e) (n g : ℕ) (hn : n < e.N) (hg : g < e.G)
    (src scratch0 : ℕ → ℚ) :
    ∑ k ∈ range (nthr_per_g e),
        stratBMeanPhase e src scratch0 (n * (nthr_per_g e * e.G) + k * e.G + g)
      = ∑ sp ∈ range e.SP, ∑ ch ∈ range e.C_PER_G,
          src (n * (e.C * e.SP) + g * e.C_PER_G + sp * e.C + ch) := by
  have hnd := statCfg_no_div e hB
  set f : ℕ → ℚ := fun spa => ∑ ch ∈ range e.C_PER_G,
    src (n * (e.C * e.SP) + g * e.C_PER_G + spa * e.C + ch) with hf
  have hterm : ∀ k ∈ range (nthr_per_g e),
      stratBMeanPhase e src scratch0 (n * (nthr_per_g e * e.G) + k * e.G + g)
        = ∑ sp ∈ range (chunkSize e.SP (nthr_per_g e) k),
            f (chunkStart e.SP (nthr_per_g e) k + sp) := by
    intro k hk
    have hk2 := Finset.mem_range.mp hk
    obtain ⟨hidx, hmod, hdiv, hstat, hoff, hbs⟩ := slot_fields e n k g hg hk2
    rw [stratBMeanPhase_eq, if_pos (slot_lt e.G e.N (nthr_per_g e) n k g hn hk2 hg),
      meanKernel_eq _ hw, hnd]
    rw [if_neg Bool.false_ne_true]
    rw [hoff, hbs, shift_groupSum]
    apply Finset.sum_congr rfl
    intro sp _
    rw [hf]
    simp only []
    apply Finset.sum_congr rfl
    intro ch _
    have hC : e.statCfg.C = e.C := rfl
    rw [hC]
    unfold chunkStart
    rw [idx_chunk (n * (e.C * e.SP) + g * e.C_PER_G) e.C (e.SP / nthr_per_g e) k sp ch]
  calc ∑ k ∈ range (nthr_per_g e),
        stratBMeanPhase e src scratch0 (n * (nthr_per_g e * e.G) + k * e.G + g)
      = ∑ k ∈ range (nthr_per_g e),
          ∑ sp ∈ range (chunkSize e.SP (nthr_per_g e) k),
            f (chunkStart e.SP (nthr_per_g e) k + sp) := Finset.sum_congr rfl hterm
    _ = ∑ sp ∈ range e.SP, f sp := chunk_tiling e.SP (nthr_per_g e) ht f
    _ = ∑ sp ∈ range e.SP, ∑ ch ∈ range e.C_PER_G,
          src (n * (e.C * e.SP) + g * e.C_PER_G + sp * e.C + ch) := rfl

lemma stratB_var_slots (e : ExecCfg) (hw : e.statCfg.wf) (hB : e.C_PER_G < 32)
    (ht : 0 < nthr_per_g e) (n g : ℕ) (hn : n < e.N) (hg : g < e.G)
    (avx512 : Bool) (src mean1 scratch0 : ℕ → ℚ) :
    ∑ k ∈ range (nthr_per_g e),
        stratBVarPhase e avx512 src mean1 scratch0
          (n * (nthr_per_g e * e.G) + k * e.G + g)
      = ∑ sp ∈ range e.SP, ∑ ch ∈ range e.C_PER_G,
          (src (n * (e.C * e.SP) + g * e.C_PER_G + sp * e.C + ch)
            - mean1 (g + n * e.G)) ^ 2 := by
  have hnd := statCfg_no_div e hB
  set f : ℕ → ℚ := fun spa => ∑ ch ∈ range e.C_PER_G,
    (src (n * (e.C * e.SP) + g * e.C_PER_G + spa * e.C + ch)
      - mean1 (g + n * e.G)) ^ 2 with hf
  have hterm : ∀ k ∈ range (nthr_per_g e),
      stratBVarPhase e avx512 src mean1 scratch0
          (n * (nthr_per_g e * e.G) + k * e.G + g)
        = ∑ sp ∈ range (chunkSize e.SP (nthr_per_g e) k),
            f (chunkStart e.SP (nthr_per_g e) k + sp) := by
    intro k hk
    have hk2 := Finset.mem_range.mp hk
    obtain ⟨hidx, hmod, hdiv, hstat, hoff, hbs⟩ := slot_fields e n k g hg hk2
    rw [stratBVarPhase_eq, if_pos (slot_lt e.G e.N (nthr_per_g e) n k g hn hk2 hg),
      varKernel_eq _ hw, hnd]
    rw [if_neg Bool.false_ne_true]
    rw [hstat, hoff, hbs, shift_groupSqSum]
    apply Finset.sum_congr rfl
    intro sp _
    rw [hf]
    simp only []
    apply Finset.sum_congr rfl
    intro ch _
    have hC : e.statCfg.C = e.C := rfl
    rw [hC]
    unfold chunkStart
    rw [idx_chunk (n * (e.C * e.SP) + g * e.C_PER_G) e.C (e.SP / nthr_per_g e) k sp ch]
  calc ∑ k ∈ range (nthr_per_g e),
        stratBVarPhase e avx512 src mean1 scratch0
          (n * (nthr_per_g e * e.G) + k * e.G + g)
      = ∑ k ∈ range (nthr_per_g e),
          ∑ sp ∈ range (chunkSize e.SP (nthr_per_g e) k),
            f (chunkStart e.SP (nthr_per_g e) k + sp) := Finset.sum_congr rfl hterm
    _ = ∑ sp ∈ range e.SP, f sp := chunk_tiling e.SP (nthr_per_g e) ht f
    _ = ∑ sp ∈ range e.SP, ∑ ch ∈ range e.C_PER_G,
          (src (n * (e.C * e.SP) + g * e.C_PER_G + sp * e.C + ch)
            - mean1 (g + n * e.G)) ^ 2 := rfl

/-- Concrete configurations used to instantiate the stated theorems. -/
def cfgA32 : StatCfg := ⟨8, 64, 32, 2⟩

/-- A strategy-B statistics-kernel configuration (C_PER_G = 4 < 32). -/
def cfgB4 : StatCfg := ⟨8, 8, 4, 3⟩

/-- A simple concrete memory content. -/
def srcLin : ℕ → ℚ := fun i => (i : ℚ)

/-- C1: for every valid input group, the mean entry point followed by the
variance entry point computes the two-pass statistics: the unrolled
accumulators, the reduced-unroll remainder path, the masked tail path, the
4→2→1 pairwise register reduction and the shuffle-and-add horizontal
reduction together equal the plain sums `Σ x` and `Σ (x - mean)²` over all
in-range elements, divided by `n = C_PER_G * SP` inside the kernel exactly
when `C_PER_G ≥ 32` (the scheduler divides otherwise). -/
theorem C1_stat_kernel_two_pass (c : StatCfg) (hw : c.wf) (src : ℕ → ℚ)
    (avx512 : Bool) (bs : ℕ) (m : ℚ) :
    (32 ≤ c.C_PER_G →
      meanKernel c src c.SP = groupSum c src c.SP / ((c.C_PER_G : ℚ) * (c.SP : ℚ))
      ∧ varKernel c avx512 src (meanKernel c src c.SP) c.SP
          = groupSqSum c src (meanKernel c src c.SP) c.SP
            / ((c.C_PER_G : ℚ) * (c.SP : ℚ)))
    ∧ (c.C_PER_G < 32 →
      meanKernel c src bs = groupSum c src bs
      ∧ varKernel c avx512 src m bs = groupSqSum c src m bs) := by
  constructor
  · intro h32
    have hd : kernelDividesInternally c = true := decide_eq_true h32
    constructor
    · rw [meanKernel_eq c hw, hd, if_pos rfl]
    · rw [varKernel_eq c hw, hd, if_pos rfl]
  · intro hlt
    have hd : kernelDividesInternally c = false :=
      decide_eq_false (Nat.not_le.mpr hlt)
    constructor
    · rw [meanKernel_eq c hw, hd, if_neg Bool.false_ne_true]
    · rw [varKernel_eq c hw, hd, if_neg Bool.false_ne_true]

/-- Witness for C1 at concrete configurations on both sides of the divide
threshold. -/
theorem C1_stat_kernel_two_pass_witness :
    (32 ≤ cfgA32.C_PER_G
      ∧ meanKernel cfgA32 srcLin cfgA32.SP
          = groupSum cfgA32 srcLin cfgA32.SP
            / ((cfgA32.C_PER_G : ℚ) * (cfgA32.SP : ℚ)))
    ∧ (cfgB4.C_PER_G < 32 ∧ meanKernel cfgB4 srcLin 3 = groupSum cfgB4 srcLin 3) :=
  ⟨⟨by decide,
    ((C1_stat_kernel_two_pass cfgA32 (Or.inl rfl) srcLin true cfgA32.SP 0).1
      (by decide)).1⟩,
   ⟨by decide,
    ((C1_stat_kernel_two_pass cfgB4 (Or.inl rfl) srcLin true 3 0).2 (by decide)).1⟩⟩

/-- C2: the scheduler selects strategy A iff `C_PER_G ≥ 32` (so 32 itself
selects A), the kernel divides internally under exactly the same condition,
under strategy B the kernel stores the un-normalized partial sum, and the
scheduler's reduce divides the summed thread slots by `C_PER_G * SP` — the
two thresholds never diverge. -/
theorem C2_threshold_consistency :
    (∀ c : StatCfg, kernelDividesInternally c = schedulerSelectsA c.C_PER_G)
    ∧ schedulerSelectsA 32 = true
    ∧ (∀ c : StatCfg, c.wf → ∀ (src : ℕ → ℚ) (bs : ℕ),
        kernelDividesInternally c = false →
        meanKernel c src bs = groupSum c src bs
          ∧ ∀ (avx512 : Bool) (m : ℚ),
              varKernel c avx512 src m bs = groupSqSum c src m bs)
    ∧ (∀ (e : ExecCfg) (tmp stat : ℕ → ℚ) (j : ℕ), j < e.G * e.N →
        reduceStat e tmp stat j
          = (∑ k ∈ range (nthr_per_g e),
              tmp ((j / e.G) * (nthr_per_g e * e.G) + k * e.G + j % e.G))
            / ((e.C_PER_G : ℚ) * (e.SP : ℚ))) := by
  refine ⟨fun c => rfl, by decide, fun c hw src bs hnd => ?_, fun e tmp stat j hj => ?_⟩
  · constructor
    · rw [meanKernel_eq c hw, hnd, if_neg Bool.false_ne_true]
    · intro avx512 m
      rw [varKernel_eq c hw, hnd, if_neg Bool.false_ne_true]
  · unfold reduceStat
    rw [if_pos hj]

/-- Witness for C2's conditional parts at a concrete strategy-B
configuration. -/
theorem C2_threshold_consistency_witness :
    kernelDividesInternally cfgB4 = false
      ∧ meanKernel cfgB4 srcLin 2 = groupSum cfgB4 srcLin 2 :=
  ⟨by decide,
   (C2_threshold_consistency.2.2.1 cfgB4 (Or.inl rfl) srcLin 2 (by decide)).1⟩

/-- C3: with scale, shift, both quantization scales and post-ops configured,
each output lane is `conv (dstScale * postOps (srcScale * ((x - mean) *
(1 / sqrt (var + eps)) * scale + shift)))` in exactly that order: the
reciprocal is an exact division of ones by the square root, scale/shift is a
single fused multiply-add, the source scale is applied after the affine step
and before the post-op chain, and the destination scale after the post-op
chain, immediately before the saturating conversion `conv` and store. -/
theorem C3_fixed_operation_order (n : NormCfg) (hsc : n.use_scale = true)
    (hsh : n.use_shift = true) (hsrc : n.with_src_scales = true)
    (hpo : n.with_postops = true) (hdst : n.with_dst_scales = true)
    (sqrtf postf conv : ℚ → ℚ) (x scalev shiftv m v srcScale dstScale : ℚ) :
    dstLane n sqrtf postf conv x scalev shiftv m v srcScale dstScale
      = conv (dstScale
          * postf (srcScale
            * ((x - m) * (1 / sqrtf (v + n.eps)) * scalev + shiftv))) := by
  obtain ⟨w, C, CPG, us, ush, uss, upo, uds, ne⟩ := n
  have hsc2 : us = true := hsc
  have hsh2 : ush = true := hsh
  have hsrc2 : uss = true := hsrc
  have hpo2 : upo = true := hpo
  have hdst2 : uds = true := hdst
  subst hsc2 hsh2 hsrc2 hpo2 hdst2
  show conv ((postf (((x - m) * (1 / sqrtf (v + ne)) * scalev + shiftv) * srcScale))
        * dstScale)
    = conv (dstScale
        * postf (srcScale * ((x - m) * (1 / sqrtf (v + ne)) * scalev + shiftv)))
  rw [mul_comm ((x - m) * (1 / sqrtf (v + ne)) * scalev + shiftv) srcScale, mul_comm]

/-- Witness for C3 at a concrete configuration and concrete inputs. -/
theorem C3_fixed_operation_order_witness :
    dstLane ⟨8, 4, 4, true, true, true, true, true, 1⟩ id id id 5 2 3 1 0 7 9
      = id (9 * id (7 * ((5 - 1) * (1 / id (0 + 1)) * 2 + 3))) :=
  C3_fixed_operation_order ⟨8, 4, 4, true, true, true, true, true, 1⟩
    rfl rfl rfl rfl rfl id id id 5 2 3 1 0 7 9

/-- C4: out-of-range lanes of the final partial vector contribute exactly
zero (the broadcast mean is masked before the subtraction on avx2, the
subtraction itself is masked on avx512), so two memories agreeing on the
in-range elements produce identical mean, variance, and normalized output. -/
theorem C4_tail_masking_hyperproperty (c : StatCfg) (hw : c.wf) (bs : ℕ)
    (src1 src2 : ℕ → ℚ)
    (hagree : ∀ sp, sp < bs → ∀ ch, ch < c.C_PER_G →
      src1 (sp * c.C + ch) = src2 (sp * c.C + ch)) :
    meanKernel c src1 bs = meanKernel c src2 bs
    ∧ (∀ (avx512 : Bool) (m : ℚ),
        varKernel c avx512 src1 m bs = varKernel c avx512 src2 m bs)
    ∧ (∀ (avx512 : Bool) (m : ℚ) (base lane : ℕ), c.axis_simd_tail ≤ lane →
        varDiffLane c avx512 true m (loadLane c src1 base true lane) lane = 0)
    ∧ (∀ nc : NormCfg, nc.C = c.C → nc.C_PER_G = c.C_PER_G →
        ∀ (sqrtf postf conv : ℚ → ℚ) (scaleArr shiftArr : ℕ → ℚ)
          (m v srcScale dstScale : ℚ) (sp ch : ℕ), sp < bs → ch < c.C_PER_G →
          computeDstVal nc sqrtf postf conv src1 scaleArr shiftArr
              m v srcScale dstScale sp ch
            = computeDstVal nc sqrtf postf conv src2 scaleArr shiftArr
              m v srcScale dstScale sp ch) := by
  have hsum : groupSum c src1 bs = groupSum c src2 bs := by
    unfold groupSum
    apply Finset.sum_congr rfl
    intro sp hsp
    apply Finset.sum_congr rfl
    intro ch hch
    exact hagree sp (Finset.mem_range.mp hsp) ch (Finset.mem_range.mp hch)
  refine ⟨?_, ?_, ?_, ?_⟩
  · rw [meanKernel_eq c hw, meanKernel_eq c hw, hsum]
  · intro avx512 m
    have hsq : groupSqSum c src1 m bs = groupSqSum c src2 m bs := by
      unfold groupSqSum
      apply Finset.sum_congr rfl
      intro sp hsp
      apply Finset.sum_congr rfl
      intro ch hch
      rw [hagree sp (Finset.mem_range.mp hsp) ch (Finset.mem_range.mp hch)]
    rw [varKernel_eq c hw, varKernel_eq c hw, hsq]
  · intro avx512 m base lane hlane
    have hl : ¬ (lane < c.axis_simd_tail) := Nat.not_lt.mpr hlane
    cases avx512
    · show (if lane < c.axis_simd_tail then src1 (base + lane) else 0)
          - (if lane < c.axis_simd_tail then m else 0) = 0
      rw [if_neg hl, if_neg hl, sub_zero]
    · show (if lane < c.axis_simd_tail
          then (if lane < c.axis_simd_tail then src1 (base + lane) else 0) - m
          else (if lane < c.axis_simd_tail then src1 (base + lane) else 0)) = 0
      rw [if_neg hl, if_neg hl]
  · intro nc hC hCPG sqrtf postf conv scaleArr shiftArr m v srcScale dstScale sp ch
      hsp hch
    unfold computeDstVal
    rw [hC, hagree sp hsp ch hch]

/-- Witness for C4: two memories that differ only beyond the in-range group
elements (here: beyond the 3 spatial positions of cfgB4) give the same
mean. -/
theorem C4_tail_masking_hyperproperty_witness :
    meanKernel cfgB4 srcLin 3
      = meanKernel cfgB4 (fun i => if i < 24 then srcLin i else 1000) 3 :=
  (C4_tail_masking_hyperproperty cfgB4 (Or.inl rfl) 3 srcLin
    (fun i => if i < 24 then srcLin i else 1000)
    (fun sp hsp ch hch => by
      have hlt : sp * cfgB4.C + ch < 24 := by
        have h1 : cfgB4.C = 8 := rfl
        have h3 : cfgB4.C_PER_G = 4 := rfl
        rw [h1]
        rw [h3] at hch
        omega
      exact (if_pos hlt).symm)).1

lemma stat_index_decode (G n g : ℕ) (hG : 0 < G) (hg : g < G) :
    (n * G + g) / G = n ∧ (n * G + g) % G = g := by
  have h1 : n * G + g = g + G * n := by
    rw [Nat.mul_comm G n, Nat.add_comm (n * G) g]
  constructor
  · rw [h1, Nat.add_mul_div_left _ _ hG, Nat.div_eq_of_lt hg, Nat.zero_add]
  · rw [h1, Nat.mul_comm G n, Nat.add_mul_mod_self_right, Nat.mod_eq_of_lt hg]

/-- C5: under strategy B the thread slots written by a statistics phase sum,
per `(n, g)`, to the single-threaded whole-extent kernel value (the
un-divided group sum), and the subsequent reduce divides that sum by
`C_PER_G * SP`, giving the same final mean/variance as a single-threaded
computation; the conclusion holds for the variance phase relative to any
finalized mean buffer, in particular the one the reduce just produced. -/
theorem C5_thread_slot_reduction (e : ExecCfg) (hw : e.statCfg.wf)
    (hB : e.C_PER_G < 32) (ht : 0 < nthr_per_g e) (n g : ℕ) (hn : n < e.N)
    (hg : g < e.G) (avx512 : Bool) (src scratch0 meanIn varIn : ℕ → ℚ) :
    (∑ k ∈ range (nthr_per_g e),
        stratBMeanPhase e src scratch0 (n * (nthr_per_g e * e.G) + k * e.G + g))
      = meanKernel e.statCfg (shiftSrc src (n * (e.C * e.SP) + g * e.C_PER_G)) e.SP
    ∧ reduceStat e (stratBMeanPhase e src scratch0) meanIn (n * e.G + g)
        = meanKernel e.statCfg (shiftSrc src (n * (e.C * e.SP) + g * e.C_PER_G)) e.SP
          / ((e.C_PER_G : ℚ) * (e.SP : ℚ))
    ∧ (∀ mean1 : ℕ → ℚ,
        (∑ k ∈ range (nthr_per_g e),
            stratBVarPhase e avx512 src mean1 (stratBMeanPhase e src scratch0)
              (n * (nthr_per_g e * e.G) + k * e.G + g))
          = varKernel e.statCfg avx512
              (shiftSrc src (n * (e.C * e.SP) + g * e.C_PER_G))
              (mean1 (g + n * e.G)) e.SP
        ∧ reduceStat e
            (stratBVarPhase e avx512 src mean1 (stratBMeanPhase e src scratch0))
            varIn (n * e.G + g)
          = varKernel e.statCfg avx512
              (shiftSrc src (n * (e.C * e.SP) + g * e.C_PER_G))
              (mean1 (g + n * e.G)) e.SP
            / ((e.C_PER_G : ℚ) * (e.SP : ℚ))) := by
  have hG : 0 < e.G := Nat.lt_of_le_of_lt (Nat.zero_le g) hg
  have hnd := statCfg_no_div e hB
  obtain ⟨hjdiv, hjmod⟩ := stat_index_decode e.G n g hG hg
  have hjlt : n * e.G + g < e.G * e.N := by
    have h1 : n * e.G + g < (n + 1) * e.G := by
      rw [Nat.succ_mul]
      exact Nat.add_lt_add_left hg (n * e.G)
    have h2 : (n + 1) * e.G ≤ e.N * e.G := Nat.mul_le_mul_right e.G hn
    rw [Nat.mul_comm e.G e.N]
    exact Nat.lt_of_lt_of_le h1 h2
  have hmeanfull : meanKernel e.statCfg
        (shiftSrc src (n * (e.C * e.SP) + g * e.C_PER_G)) e.SP
      = ∑ sp ∈ range e.SP, ∑ ch ∈ range e.C_PER_G,
          src (n * (e.C * e.SP) + g * e.C_PER_G + sp * e.C + ch) := by
    rw [meanKernel_eq _ hw, hnd]
    rw [if_neg Bool.false_ne_true]
    exact shift_groupSum e.statCfg src _ e.SP
  have hmean := stratB_mean_slots e hw hB ht n g hn hg src scratch0
  refine ⟨by rw [hmean, hmeanfull], ?_, ?_⟩
  · unfold reduceStat
    rw [if_pos hjlt, hjdiv, hjmod, hmean, hmeanfull]
  · intro mean1
    have hvarfull : varKernel e.statCfg avx512
          (shiftSrc src (n * (e.C * e.SP) + g * e.C_PER_G))
          (mean1 (g + n * e.G)) e.SP
        = ∑ sp ∈ range e.SP, ∑ ch ∈ range e.C_PER_G,
            (src (n * (e.C * e.SP) + g * e.C_PER_G + sp * e.C + ch)
              - mean1 (g + n * e.G)) ^ 2 := by
      rw [varKernel_eq _ hw, hnd]
      rw [if_neg Bool.false_ne_true]
      exact shift_groupSqSum e.statCfg src _ _ e.SP
    have hvar := stratB_var_slots e hw hB ht n g hn hg avx512 src mean1
      (stratBMeanPhase e src scratch0)
    refine ⟨by rw [hvar, hvarfull], ?_⟩
    unfold reduceStat
    rw [if_pos hjlt, hjdiv, hjmod, hvar, hvarfull]

/-- A concrete strategy-B execution configuration: N = 1, G = 2, C_PER_G = 4,
SP = 3, avx2 vector width, 8 threads (so nthr_per_g = 2). -/
def execB : ExecCfg := ⟨1, 2, 4, 3, 8, 8, false, false, false, false, false, false, 1⟩

/-- Witness for C5 at `execB`, group (0, 0). -/
theorem C5_thread_slot_reduction_witness :
    (∑ k ∈ range (nthr_per_g execB),
        stratBMeanPhase execB srcLin srcLin
          (0 * (nthr_per_g execB * execB.G) + k * execB.G + 0))
      = meanKernel execB.statCfg
          (shiftSrc srcLin (0 * (execB.C * execB.SP) + 0 * execB.C_PER_G)) execB.SP :=
  (C5_thread_slot_reduction execB (Or.inl rfl) (by decide) (by decide)
    0 0 (by decide) (by decide) true srcLin srcLin srcLin srcLin).1

lemma last_chunk_start_le (SP t : ℕ) (ht : 0 < t) : (t - 1) * (SP / t) ≤ SP :=
  Nat.le_trans (Nat.mul_le_mul_right _ (Nat.sub_le t 1))
    (Nat.le_trans (Nat.le_of_eq (Nat.mul_comm t (SP / t)))
      (Nat.div_mul_le_self SP t))

lemma interval_within (q t k SP : ℕ) (hk : k < t) (hle : (t - 1) * q ≤ SP) :
    k * q + (if k = t - 1 then SP - (t - 1) * q else q) ≤ SP := by
  by_cases hk2 : k = t - 1
  · rw [if_pos hk2, hk2]
    exact Nat.le_of_eq (Nat.add_sub_cancel' hle)
  · rw [if_neg hk2]
    have h5 : k * q + q = (k + 1) * q := (Nat.succ_mul k q).symm
    have h6 : k + 1 ≤ t - 1 :=
      Nat.succ_le_of_lt (Nat.lt_of_le_of_ne (Nat.le_pred_of_lt hk) hk2)
    rw [h5]
    exact Nat.le_trans (Nat.mul_le_mul_right q h6) hle

lemma lt_div_mul_add (sp q : ℕ) (hq : 0 < q) : sp < sp / q * q + q := by
  have h := Nat.div_add_mod sp q
  have h2 : q * (sp / q) + sp % q < q * (sp / q) + q :=
    Nat.add_lt_add_left (Nat.mod_lt sp hq) (q * (sp / q))
  rw [h, Nat.mul_comm q (sp / q)] at h2
  exact h2

lemma div_chunk_unique (y sp q : ℕ) (hq : 0 < q) (h1 : y * q ≤ sp)
    (h2 : sp < y * q + q) : y = sp / q := by
  have h3 : sp < (y + 1) * q := by
    rw [Nat.succ_mul]
    exact h2
  exact Nat.le_antisymm ((Nat.le_div_iff_mul_le hq).mpr h1)
    (Nat.lt_succ_iff.mp ((Nat.div_lt_iff_lt_mul hq).mpr h3))

lemma interval_cover (q t sp SP : ℕ) (ht : 0 < t) (hsp : sp < SP)
    (hle : (t - 1) * q ≤ SP) :
    ∃! k, k < t ∧ k * q ≤ sp
      ∧ sp < k * q + (if k = t - 1 then SP - (t - 1) * q else q) := by
  by_cases hc : sp < (t - 1) * q
  · have hq : 0 < q := by
      rcases Nat.eq_zero_or_pos q with h0 | h0
      · rw [h0, mul_zero] at hc
        exact absurd hc (Nat.not_lt_zero sp)
      · exact h0
    have hk1 : sp / q < t - 1 := (Nat.div_lt_iff_lt_mul hq).mpr hc
    refine ⟨sp / q, ⟨Nat.lt_of_lt_of_le hk1 (Nat.sub_le t 1),
      Nat.div_mul_le_self sp q, ?_⟩, ?_⟩
    · rw [if_neg (Nat.ne_of_lt hk1)]
      exact lt_div_mul_add sp q hq
    · intro y hy
      obtain ⟨hy1, hy2, hy3⟩ := hy
      have hyne : y ≠ t - 1 := by
        intro hcontra
        rw [hcontra] at hy2
        exact absurd hc (Nat.not_lt.mpr hy2)
      rw [if_neg hyne] at hy3
      exact div_chunk_unique y sp q hq hy2 hy3
  · have hc2 : (t - 1) * q ≤ sp := Nat.not_lt.mp hc
    refine ⟨t - 1, ⟨Nat.sub_lt ht Nat.one_pos, hc2, ?_⟩, ?_⟩
    · rw [if_pos rfl, Nat.add_sub_cancel' hle]
      exact hsp
    · intro y hy
      obtain ⟨hy1, hy2, hy3⟩ := hy
      by_contra hyne
      rw [if_neg hyne] at hy3
      have h8 : y + 1 ≤ t - 1 :=
        Nat.succ_le_of_lt (Nat.lt_of_le_of_ne (Nat.le_pred_of_lt hy1) hyne)
      have h9 : (y + 1) * q ≤ (t - 1) * q := Nat.mul_le_mul_right q h8
      have h7 : y * q + q = (y + 1) * q := (Nat.succ_mul y q).symm
      rw [h7] at hy3
      exact absurd (Nat.lt_of_lt_of_le hy3 h9) (Nat.not_lt.mpr hc2)

/-- C6: under strategy B, `nthr_per_g = min(nthr, G)` threads share one group;
chunk `k` starts at `k * (SP / nthr_per_g)` and spans `SP / nthr_per_g`
positions, except the last chunk (index `nthr_per_g - 1`), which spans
`SP` minus its own start, absorbing the remainder; the chunks stay within
`[0, SP)` and tile it exactly: every spatial position lies in exactly one
chunk. -/
theorem C6_spatial_chunking (e : ExecCfg) (hn : 0 < e.nthr) (hG : 0 < e.G) :
    nthr_per_g e = min e.nthr e.G
    ∧ (∀ k, k ≠ nthr_per_g e - 1 →
        chunkSize e.SP (nthr_per_g e) k = e.SP / nthr_per_g e)
    ∧ chunkSize e.SP (nthr_per_g e) (nthr_per_g e - 1)
        = e.SP - chunkStart e.SP (nthr_per_g e) (nthr_per_g e - 1)
    ∧ (∀ k, chunkStart e.SP (nthr_per_g e) k = k * (e.SP / nthr_per_g e))
    ∧ (∀ k, k < nthr_per_g e →
        chunkStart e.SP (nthr_per_g e) k + chunkSize e.SP (nthr_per_g e) k ≤ e.SP)
    ∧ (∀ sp, sp < e.SP → ∃! k, k < nthr_per_g e
        ∧ chunkStart e.SP (nthr_per_g e) k ≤ sp
        ∧ sp < chunkStart e.SP (nthr_per_g e) k + chunkSize e.SP (nthr_per_g e) k) := by
  have ht : 0 < nthr_per_g e := lt_min hn hG
  have hle := last_chunk_start_le e.SP (nthr_per_g e) ht
  refine ⟨rfl, fun k hk => if_neg hk, if_pos rfl, fun k => rfl, ?_, ?_⟩
  · intro k hk
    exact interval_within (e.SP / nthr_per_g e) (nthr_per_g e) k e.SP hk hle
  · intro sp hsp
    exact interval_cover (e.SP / nthr_per_g e) (nthr_per_g e) sp e.SP ht hsp hle

/-- Witness for C6 at `execB` (8 threads, G = 2, SP = 3): the chunk layout
facts at the concrete configuration. -/
theorem C6_spatial_chunking_witness :
    nthr_per_g execB = min execB.nthr execB.G
    ∧ chunkSize execB.SP (nthr_per_g execB) (nthr_per_g execB - 1)
        = execB.SP - chunkStart execB.SP (nthr_per_g execB) (nthr_per_g execB - 1) :=
  ⟨(C6_spatial_chunking execB (by decide) (by decide)).1,
   (C6_spatial_chunking execB (by decide) (by decide)).2.2.1⟩

/-- C7: `pd_t::init` succeeds exactly when every dispatch condition holds —
forward propagation, avx2 availability, no empty tensor, supported element
types for the available instruction sets, attribute/scale/format/tag checks,
`C_PER_G = C / G > 1`, and post-op validity; every invalid configuration is
rejected with a structured unsupported-configuration status (and in
particular `C_PER_G ≤ 1` is always rejected), while `execute_forward`
unconditionally returns `status::success`. -/
lemma bool_true_of_not_bang {b : Bool} (h : ¬ ((!b) = true)) : b = true := by
  cases b
  · exact absurd rfl h
  · rfl

lemma ite_unimpl_inv {c : Prop} [Decidable c] {r : Reason} {s : Status}
    (h : (if c then Status.unimplemented r else s) = Status.success) :
    ¬ c ∧ s = Status.success := by
  by_cases hc : c
  · rw [if_pos hc] at h
    exact Status.noConfusion h
  · rw [if_neg hc] at h
    exact ⟨hc, h⟩

theorem C7_build_time_validation :
    (∀ p : PdConfig, pd_init p = Status.success ↔
      (p.is_fwd = true ∧ p.mayiuse_avx2 = true ∧ p.has_zero_dim_memory = false
        ∧ dt_ok p.src_dt = true ∧ dt_ok p.dst_dt = true
        ∧ ((p.src_dt = DataType.bf16 ∨ p.dst_dt = DataType.bf16) →
            (p.mayiuse_avx512_core = true ∨ p.mayiuse_avx2_vnni_2 = true))
        ∧ ((p.src_dt = DataType.f16 ∨ p.dst_dt = DataType.f16) →
            (p.mayiuse_avx512_core_fp16 = true ∨ p.mayiuse_avx2_vnni_2 = true))
        ∧ p.attr_default_ok = true ∧ p.attr_scales_ok = true
        ∧ p.set_default_formats_ok = true ∧ p.src_tag_ok = true
        ∧ p.dst_tag_ok = true ∧ 1 < p.C / p.G
        ∧ p.attr_post_op_formats_ok = true ∧ p.post_ops_ok = true))
    ∧ (∀ p : PdConfig, p.C / p.G ≤ 1 → pd_init p ≠ Status.success)
    ∧ (∀ p : PdConfig, pd_init p ≠ Status.success →
        ∃ r, pd_init p = Status.unimplemented r)
    ∧ (∀ (e : ExecCfg) (avx512 : Bool) (src scaleArr shiftArr : ℕ → ℚ)
        (srcScale dstScale : ℚ) (sqrtf postf conv : ℚ → ℚ)
        (meanIn varIn dstIn scratchIn : ℕ → ℚ),
        (executeModel e avx512 src scaleArr shiftArr srcScale dstScale
          sqrtf postf conv meanIn varIn dstIn scratchIn).2 = Status.success) := by
  have hiff : ∀ p : PdConfig, pd_init p = Status.success ↔
      (p.is_fwd = true ∧ p.mayiuse_avx2 = true ∧ p.has_zero_dim_memory = false
        ∧ dt_ok p.src_dt = true ∧ dt_ok p.dst_dt = true
        ∧ ((p.src_dt = DataType.bf16 ∨ p.dst_dt = DataType.bf16) →
            (p.mayiuse_avx512_core = true ∨ p.mayiuse_avx2_vnni_2 = true))
        ∧ ((p.src_dt = DataType.f16 ∨ p.dst_dt = DataType.f16) →
            (p.mayiuse_avx512_core_fp16 = true ∨ p.mayiuse_avx2_vnni_2 = true))
        ∧ p.attr_default_ok = true ∧ p.attr_scales_ok = true
        ∧ p.set_default_formats_ok = true ∧ p.src_tag_ok = true
        ∧ p.dst_tag_ok = true ∧ 1 < p.C / p.G
        ∧ p.attr_post_op_formats_ok = true ∧ p.post_ops_ok = true) := by
    intro p
    constructor
    · intro h
      unfold pd_init at h
      obtain ⟨h1, h⟩ := ite_unimpl_inv h
      obtain ⟨h2, h⟩ := ite_unimpl_inv h
      obtain ⟨h3, h⟩ := ite_unimpl_inv h
      obtain ⟨h4, h⟩ := ite_unimpl_inv h
      obtain ⟨h5, h⟩ := ite_unimpl_inv h
      obtain ⟨h6, h⟩ := ite_unimpl_inv h
      obtain ⟨h7, h⟩ := ite_unimpl_inv h
      obtain ⟨h8, h⟩ := ite_unimpl_inv h
      obtain ⟨h9, h⟩ := ite_unimpl_inv h
      obtain ⟨h10, h⟩ := ite_unimpl_inv h
      obtain ⟨h11, h⟩ := ite_unimpl_inv h
      obtain ⟨h12, h⟩ := ite_unimpl_inv h
      obtain ⟨h13, h⟩ := ite_unimpl_inv h
      obtain ⟨h14, h⟩ := ite_unimpl_inv h
      obtain ⟨h15, h⟩ := ite_unimpl_inv h
      exact ⟨bool_true_of_not_bang h1, bool_true_of_not_bang h2,
        Bool.of_not_eq_true h3,
        bool_true_of_not_bang h4, bool_true_of_not_bang h5,
        fun hd => not_not.mp (fun hn => h6 ⟨hd, hn⟩),
        fun hd => not_not.mp (fun hn => h7 ⟨hd, hn⟩),
        bool_true_of_not_bang h8, bool_true_of_not_bang h9,
        bool_true_of_not_bang h10, bool_true_of_not_bang h11,
        bool_true_of_not_bang h12,
        not_not.mp h13,
        bool_true_of_not_bang h14, bool_true_of_not_bang h15⟩
    · rintro ⟨h1, h2, h3, h4, h5, h6, h7, h8, h9, h10, h11, h12, h13, h14, h15⟩
      unfold pd_init
      rw [if_neg (by rw [h1]; decide), if_neg (by rw [h2]; decide),
        if_neg (by rw [h3]; decide),
        if_neg (by rw [h4]; decide), if_neg (by rw [h5]; decide),
        if_neg (fun hand => hand.2 (h6 hand.1)),
        if_neg (fun hand => hand.2 (h7 hand.1)),
        if_neg (by rw [h8]; decide), if_neg (by rw [h9]; decide),
        if_neg (by rw [h10]; decide),
        if_neg (by rw [h11]; decide), if_neg (by rw [h12]; decide),
        if_neg (not_not_intro h13),
        if_neg (by rw [h14]; decide), if_neg (by rw [h15]; decide)]
  refine ⟨hiff, ?_, ?_, ?_⟩
  · intro p hle hsucc
    have h := (hiff p).mp hsucc
    exact absurd h.2.2.2.2.2.2.2.2.2.2.2.2.1 (Nat.not_lt.mpr hle)
  · intro p h
    cases hs : pd_init p with
    | success => exact absurd hs h
    | unimplemented r => exact ⟨r, rfl⟩
  · intro e avx512 src scaleArr shiftArr srcScale dstScale sqrtf postf conv
      meanIn varIn dstIn scratchIn
    rfl

/-- A concrete valid descriptor (f32, avx2, C = 64, G = 2). -/
def pdOk : PdConfig :=
  ⟨true, true, false, false, false, false, DataType.f32, DataType.f32,
    true, true, true, true, true, 64, 2, true, true⟩

/-- The same descriptor with G = 64, i.e. `C_PER_G = 1` (instance norm). -/
def pdBad : PdConfig :=
  ⟨true, true, false, false, false, false, DataType.f32, DataType.f32,
    true, true, true, true, true, 64, 64, true, true⟩

/-- Witness for C7: a valid descriptor is accepted, a single-channel-group
descriptor is rejected. -/
theorem C7_build_time_validation_witness :
    pd_init pdOk = Status.success ∧ pd_init pdBad ≠ Status.success :=
  ⟨(C7_build_time_validation.1 pdOk).mpr (by decide),
   C7_build_time_validation.2.1 pdBad (by decide)⟩

lemma stratA_fold_preserves (e : ExecCfg) (hcs : e.calculate_stats = false)
    (avx512 : Bool) (src scaleArr shiftArr : ℕ → ℚ) (srcScale dstScale : ℚ)
    (sqrtf postf conv : ℚ → ℚ) (l : List ℕ) (st : ExecSt) :
    (l.foldl (stratAStep e avx512 src scaleArr shiftArr srcScale dstScale
        sqrtf postf conv) st).mean = st.mean
    ∧ (l.foldl (stratAStep e avx512 src scaleArr shiftArr srcScale dstScale
        sqrtf postf conv) st).var = st.var
    ∧ (l.foldl (stratAStep e avx512 src scaleArr shiftArr srcScale dstScale
        sqrtf postf conv) st).statCalls = st.statCalls := by
  induction l generalizing st with
  | nil => exact ⟨rfl, rfl, rfl⟩
  | cons i tl ih =>
      simp only [List.foldl_cons]
      obtain ⟨ha, hb, hc⟩ := ih (stratAStep e avx512 src scaleArr shiftArr srcScale
        dstScale sqrtf postf conv st i)
      rw [ha, hb, hc]
      unfold stratAStep
      rw [hcs]
      exact ⟨rfl, rfl, rfl⟩

/-- C8: when statistics are supplied externally (`stats_is_src`), execution
invokes no statistics kernel under either strategy and leaves the
caller-supplied mean and variance buffers untouched; only the destination
tensor is written. -/
theorem C8_supplied_stats_frame (e : ExecCfg) (hs : e.stats_is_src = true)
    (avx512 : Bool) (src scaleArr shiftArr : ℕ → ℚ) (srcScale dstScale : ℚ)
    (sqrtf postf conv : ℚ → ℚ) (meanIn varIn dstIn scratchIn : ℕ → ℚ) :
    (executeModel e avx512 src scaleArr shiftArr srcScale dstScale sqrtf postf conv
        meanIn varIn dstIn scratchIn).1.mean = meanIn
    ∧ (executeModel e avx512 src scaleArr shiftArr srcScale dstScale sqrtf postf conv
        meanIn varIn dstIn scratchIn).1.var = varIn
    ∧ (executeModel e avx512 src scaleArr shiftArr srcScale dstScale sqrtf postf conv
        meanIn varIn dstIn scratchIn).1.statCalls = 0 := by
  have hcs : e.calculate_stats = false := by
    unfold ExecCfg.calculate_stats
    rw [hs]
    rfl
  unfold executeModel
  by_cases hA : schedulerSelectsA e.C_PER_G = true
  · simp only [hA, if_true]
    exact stratA_fold_preserves e hcs avx512 src scaleArr shiftArr srcScale dstScale
      sqrtf postf conv (List.range (e.G * e.N)) ⟨meanIn, varIn, dstIn, 0⟩
  · simp only [hA, Bool.false_eq_true, if_false]
    unfold stratB
    rw [hcs]
    rw [if_neg Bool.false_ne_true]
    exact ⟨rfl, rfl, rfl⟩

/-- Witness for C8 at a concrete configuration with externally supplied
statistics. -/
theorem C8_supplied_stats_frame_witness :
    (executeModel ⟨1, 2, 4, 3, 8, 8, true, false, false, false, false, false, 1⟩
        true srcLin srcLin srcLin 1 1 id id id srcLin srcLin srcLin srcLin).1.mean
      = srcLin
    ∧ (executeModel ⟨1, 2, 4, 3, 8, 8, true, false, false, false, false, false, 1⟩
        true srcLin srcLin srcLin 1 1 id id id srcLin srcLin srcLin srcLin).1.statCalls
      = 0 :=
  ⟨(C8_supplied_stats_frame ⟨1, 2, 4, 3, 8, 8, true, false, false, false, false,
      false, 1⟩ rfl true srcLin srcLin srcLin 1 1 id id id srcLin srcLin srcLin
      srcLin).1,
   (C8_supplied_stats_frame ⟨1, 2, 4, 3, 8, 8, true, false, false, false, false,
      false, 1⟩ rfl true srcLin srcLin srcLin 1 1 id id id srcLin srcLin srcLin
      srcLin).2.2⟩

/-- C9: every statistics-kernel invocation writes exactly one float — lane 0
of the reduced `vmm_stat`, stored through the one-element tail mask of
`io_stat_` — at its output pointer, leaving every other address (in
particular the stat entries of other `(n, g)` units and other scratch slots)
unchanged, which is what makes the concurrent stat writes disjoint. -/
theorem C9_single_element_stat_store (c : StatCfg) (src : ℕ → ℚ) (bs : ℕ)
    (mem : ℕ → ℚ) (ptr : ℕ) :
    meanKernelCall c src bs mem ptr ptr = meanKernel c src bs
    ∧ (∀ j, j ≠ ptr → meanKernelCall c src bs mem ptr j = mem j)
    ∧ (∀ (avx512 : Bool) (m : ℚ),
        varKernelCall c avx512 src m bs mem ptr ptr = varKernel c avx512 src m bs
        ∧ ∀ j, j ≠ ptr → varKernelCall c avx512 src m bs mem ptr j = mem j)
    ∧ (∀ base i1 i2, i1 ≠ i2 →
        meanKernelCall c src bs mem (base + i1) (base + i2) = mem (base + i2)) := by
  have hm : ∀ p j, meanKernelCall c src bs mem p j
      = if j = p then meanKernel c src bs else mem j := by
    intro p j
    rw [meanKernelCall, storeVec_one]
    rfl
  refine ⟨by rw [hm, if_pos rfl], fun j hj => by rw [hm, if_neg hj], ?_, ?_⟩
  · intro avx512 m
    have hv : ∀ j, varKernelCall c avx512 src m bs mem ptr j
        = if j = ptr then varKernel c avx512 src m bs else mem j := by
      intro j
      rw [varKernelCall, storeVec_one]
      rfl
    exact ⟨by rw [hv, if_pos rfl], fun j hj => by rw [hv, if_neg hj]⟩
  · intro base i1 i2 h12
    rw [hm, if_neg (fun hc => h12 (Nat.add_left_cancel hc).symm)]

/-- Witness for C9 at a concrete invocation. -/
theorem C9_single_element_stat_store_witness :
    meanKernelCall cfgB4 srcLin 1 srcLin 5 5 = meanKernel cfgB4 srcLin 1
    ∧ meanKernelCall cfgB4 srcLin 1 srcLin 5 7 = srcLin 7 :=
  ⟨(C9_single_element_stat_store cfgB4 srcLin 1 srcLin 5).1,
   (C9_single_element_stat_store cfgB4 srcLin 1 srcLin 5).2.1 7 (by decide)⟩

lemma accFullBlocks_bs_zero (w C cb : ℕ) (g : ℕ → ℕ → ℚ) (nb : ℕ)
    (acc : ℕ → ℕ → ℚ) :
    accFullBlocks w C cb g 0 nb acc = acc := by
  induction nb with
  | zero => rfl
  | succ b ih =>
      simp only [accFullBlocks, accBlock]
      rw [ih]

lemma statAccum_bs_zero (c : StatCfg) (g gt : ℕ → ℕ → ℚ) :
    statAccum c g gt 0 = fun _ _ => 0 := by
  simp only [statAccum, accFullBlocks_bs_zero]
  split_ifs <;> rfl

lemma shuffleAdd_zero (k : ℕ) (f : ℕ → ℚ) (hf : ∀ lane, f lane = 0) :
    ∀ lane, shuffleAdd k f lane = 0 := by
  intro lane
  unfold shuffleAdd
  rw [hf, hf, add_zero]

lemma statVec_zero_acc (c : StatCfg) : statVec c (fun _ _ => 0) 0 = 0 := by
  have hz : ∀ lane, reduceUnrolled c (fun _ _ => 0) lane = 0 := by
    intro lane
    unfold reduceUnrolled
    split_ifs <;> simp only [add_zero]
  have hz2 : reduce_horizontal c (reduceUnrolled c (fun _ _ => 0)) 0 = 0 := by
    unfold reduce_horizontal
    split_ifs
    · exact shuffleAdd_zero 1 _ (shuffleAdd_zero 2 _ (shuffleAdd_zero 4 _
        (shuffleAdd_zero 8 _ hz))) 0
    · exact shuffleAdd_zero 1 _ (shuffleAdd_zero 2 _ (shuffleAdd_zero 4 _ hz)) 0
  simp only [statVec]
  rw [hz2]
  split_ifs
  · exact zero_div _
  · rfl

lemma meanKernel_bs_zero (c : StatCfg) (src : ℕ → ℚ) : meanKernel c src 0 = 0 := by
  unfold meanKernel meanAcc
  rw [statAccum_bs_zero]
  exact statVec_zero_acc c

lemma varKernel_bs_zero (c : StatCfg) (avx512 : Bool) (src : ℕ → ℚ) (m : ℚ) :
    varKernel c avx512 src m 0 = 0 := by
  unfold varKernel varAcc
  rw [statAccum_bs_zero]
  exact statVec_zero_acc c

/-- C10: a statistics-kernel invocation with a zero-length spatial block
performs no source loads (its effect does not depend on the memory contents)
and stores exactly 0 at its output slot; consequently, under strategy B with
`SP < nthr_per_g`, every non-last chunk is empty, the threads owning such
chunks write 0 into their partial-reduction scratch slots, and the reduced
statistic equals the contribution of the non-empty chunks alone. -/
theorem C10_zero_spatial_block (c : StatCfg) (src1 src2 : ℕ → ℚ) (mem : ℕ → ℚ)
    (ptr : ℕ) (avx512 : Bool) (m : ℚ) (e : ExecCfg) (n g : ℕ) (hn : n < e.N)
    (hg : g < e.G) (src scratch0 : ℕ → ℚ) :
    meanKernel c src1 0 = 0
    ∧ varKernel c avx512 src1 m 0 = 0
    ∧ meanKernelCall c src1 0 mem ptr = meanKernelCall c src2 0 mem ptr
    ∧ meanKernelCall c src1 0 mem ptr ptr = 0
    ∧ (e.SP < nthr_per_g e → ∀ k, k < nthr_per_g e - 1 →
        chunkSize e.SP (nthr_per_g e) k = 0)
    ∧ (∀ k, k < nthr_per_g e → chunkSize e.SP (nthr_per_g e) k = 0 →
        stratBMeanPhase e src scratch0 (n * (nthr_per_g e * e.G) + k * e.G + g) = 0)
    ∧ (∑ k ∈ range (nthr_per_g e),
          stratBMeanPhase e src scratch0 (n * (nthr_per_g e * e.G) + k * e.G + g))
        = ∑ k ∈ (range (nthr_per_g e)).filter
            (fun k => chunkSize e.SP (nthr_per_g e) k ≠ 0),
            stratBMeanPhase e src scratch0
              (n * (nthr_per_g e * e.G) + k * e.G + g) := by
  have hslot : ∀ k, k < nthr_per_g e → chunkSize e.SP (nthr_per_g e) k = 0 →
      stratBMeanPhase e src scratch0 (n * (nthr_per_g e * e.G) + k * e.G + g) = 0 := by
    intro k hk hsz
    obtain ⟨hidx, hmod, hdiv, hstat, hoff, hbs⟩ := slot_fields e n k g hg hk
    rw [stratBMeanPhase_eq, if_pos (slot_lt e.G e.N (nthr_per_g e) n k g hn hk hg),
      hbs, hsz, meanKernel_bs_zero]
  refine ⟨meanKernel_bs_zero c src1, varKernel_bs_zero c avx512 src1 m, ?_, ?_,
    ?_, hslot, ?_⟩
  · unfold meanKernelCall meanAcc
    rw [statAccum_bs_zero, statAccum_bs_zero]
  · rw [meanKernelCall, storeVec_one]
    have h1 : writeAt mem ptr (statVec c (meanAcc c src1 0) 0) ptr
        = statVec c (meanAcc c src1 0) 0 := by
      unfold writeAt
      rw [if_pos rfl]
    rw [h1]
    unfold meanAcc
    rw [statAccum_bs_zero]
    exact statVec_zero_acc c
  · intro hsp k hk
    unfold chunkSize
    rw [if_neg (Nat.ne_of_lt hk)]
    exact Nat.div_eq_of_lt hsp
  · refine (Finset.sum_filter_of_ne ?_).symm
    intro k hk hne
    by_contra h0
    exact hne (hslot k (Finset.mem_range.mp hk) h0)

/-- Witness for C10: zero-block kernel value and the empty-chunk slot fact at
a concrete configuration. -/
theorem C10_zero_spatial_block_witness :
    meanKernel cfgB4 srcLin 0 = 0
    ∧ varKernel cfgB4 true srcLin 5 0 = 0 :=
  ⟨(C10_zero_spatial_block cfgB4 srcLin srcLin srcLin 0 true 5 execB 0 0
      (by decide) (by decide) srcLin srcLin).1,
   (C10_zero_spatial_block cfgB4 srcLin srcLin srcLin 0 true 5 execB 0 0
      (by decide) (by decide) srcLin srcLin).2.1⟩
